import Mathlib

/-!
Shallow embedding of the core I/O layer of the HyperSpy repository
(io_plugins/hdf5.py, io_plugins/digital_micrograph.py, io_plugins/fei.py,
external/tifffile.py, misc/io/utils_readfile.py) together with theorems
settling the spec claims about that layer.

Conventions:
* Python byte strings are `List Nat` with every element `< 256`.
* Machine integers are `Nat`/`Int`; signedness is applied explicitly
  (`toSigned32`) where the source uses signed struct codes.
* Fallible code returns `Except String`/`Option`.
-/

/-! ### Generic byte/stream helpers -/

/-- Big-endian value of a list of bytes (most significant first).
Mirrors `struct.unpack('>I', ...)`-style decoding for a 4-byte slice. -/
def beNat : List Nat → Nat
  | [] => 0
  | b :: bs => b * 256 ^ bs.length + beNat bs

/-- Interpret a 32-bit unsigned value as the signed integer that
`struct.unpack('>l', ...)` would produce. -/
def toSigned32 (v : Nat) : Int :=
  if v < 2 ^ 31 then (v : Int) else (v : Int) - 2 ^ 32

/-! ### Primitive binary reader (misc/io/utils_readfile.py)

`read_long(f, "big")` reads 4 bytes and decodes them as a big-endian
signed 4-byte integer (`struct.Struct('>l')`).  The stream is a byte list
plus a cursor; a read past the end is a `struct.error`, modelled as
`none`. -/

def read_long_big (f : List Nat) (pos : Nat) : Option (Int × Nat) :=
  if pos + 4 ≤ f.length then
    some (toSigned32 (beNat ((f.drop pos).take 4)), pos + 4)
  else
    none

/-! ### DM3/DM4 reader (io_plugins/digital_micrograph.py)

`DigitalMicrographReader.skipif4` (lines 270-272):

    def skipif4(self, n=1):
        if self.dm_version == 4:
            self.f.seek(4 * n, 1)
-/

def skipif4 (dm_version : Int) (pos : Nat) (n : Nat) : Nat :=
  if dm_version = 4 then pos + 4 * n else pos

/-- Parsed DM header: version, file size and endianness, plus the cursor
position after the header. -/
structure DMHeader where
  dm_version : Int
  filesizeB : Int
  endian : String
  endPos : Nat

/-- `DigitalMicrographReader.parse_header` (lines 91-111).  Reads the
4-byte big-endian version; if it is neither 3 nor 4 the source raises
immediately (it reaches a raise statement; the `print` on line 94 in fact
trips a `NameError` on the undefined local `dm_version` first, but either
way the call raises before any further read).  Otherwise it performs
`skipif4` and reads `filesizeB` and the endianness flag with
`read_long(f, "big")`. -/
def parse_header (f : List Nat) : Except String DMHeader :=
  match read_long_big f 0 with
  | none => .error "struct.error"
  | some (dm_version, pos) =>
    if dm_version ≠ 3 ∧ dm_version ≠ 4 then
      .error "Currently we only support reading DM versions 3 and 4"
    else
      let pos := skipif4 dm_version pos 1
      match read_long_big f pos with
      | none => .error "struct.error"
      | some (filesizeB, pos) =>
        match read_long_big f pos with
        | none => .error "struct.error"
        | some (is_little_endian, pos) =>
          .ok { dm_version := dm_version
                filesizeB := filesizeB
                endian := if is_little_endian ≠ 0 then "little" else "big"
                endPos := pos }

/-! ### FEI SER reader padding (io_plugins/fei.py, lines 414-428)

    if np.cumprod(array_shape)[-1] != np.cumprod(data['Array'].shape)[-1]:
        dc = np.zeros(np.cumprod(array_shape)[-1],
                      dtype=data['Array'].dtype)
        if dc.dtype is np.dtype('f') or dc.dtype is np.dtype('f8'):
            dc[:] = np.nan
        dc[:data['Array'].ravel().shape[0]] = data['Array'].ravel()
    else:
        dc = data['Array']
-/

/-- SER element dtypes (the `data_types` table of fei.py). -/
inductive SerDtype where
  | u1 | u2 | u4 | i1 | i2 | i4 | f4 | f8 | c8 | c16
deriving DecidableEq

/-- The source NaN-fills exactly when `dc.dtype is np.dtype('f')`
(float32, i.e. `<f4`) or `np.dtype('f8')`. -/
def isFloatFill : SerDtype → Bool
  | .f4 => true
  | .f8 => true
  | _ => false

def isIntDtype : SerDtype → Bool
  | .u1 => true
  | .u2 => true
  | .u4 => true
  | .i1 => true
  | .i2 => true
  | .i4 => true
  | _ => false

/-- A numeric cell of the SER data array: an ordinary value, or the NaN
produced by `dc[:] = np.nan`.  Finite values are kept opaque as integers
(the reader never inspects them). -/
inductive SerCell where
  | num (z : Int)
  | nan
deriving DecidableEq

def serFill (dtype : SerDtype) : SerCell :=
  if isFloatFill dtype then .nan else .num 0

/-- The padding step of `ser_reader`: `array_shape` is the declared shape
(its product equals `TotalNumberElements` times the per-record array
size), `recorded` the flat values actually present.  On a length
mismatch a fresh zero (or NaN) buffer of the declared size is allocated
and the recorded values are copied into its head; `none` models the
`ValueError` numpy would raise if more values than declared were
assigned into the slice. -/
def serPad (dtype : SerDtype) (array_shape : List Nat) (recorded : List SerCell) :
    Option (List SerCell) :=
  let total := array_shape.prod
  if total = recorded.length then
    some recorded
  else if recorded.length ≤ total then
    some (recorded ++ List.replicate (total - recorded.length) (serFill dtype))
  else
    none

/-! ### TIFF writer format selection (external/tifffile.py)

`imsave` (lines 199-212):

    if 'bigtiff' not in tifargs and data.size * \
            data.dtype.itemsize > 2000 * 2**20:
        tifargs['bigtiff'] = True

`TiffWriter.__init__` (lines 276-291) writes version 43 with 8-byte
offsets for BigTIFF, version 42 with 4-byte offsets otherwise. -/

def bigtiffThreshold : Nat := 2000 * 2 ^ 20

/-- The `bigtiff` value that `imsave` ends up passing to `TiffWriter`:
the caller's explicit argument if given, otherwise `True` exactly when
`data.size * data.dtype.itemsize > 2000 * 2**20`. -/
def imsave_bigtiff (explicit : Option Bool) (size itemsize : Nat) : Bool :=
  match explicit with
  | some b => b
  | none => decide (size * itemsize > bigtiffThreshold)

def tiffwriter_version (bigtiff : Bool) : Nat :=
  if bigtiff then 43 else 42

def tiffwriter_offset_size (bigtiff : Bool) : Nat :=
  if bigtiff then 8 else 4

/-- 16-bit little/big-endian `struct.pack` of one value. -/
def pack16 (littleEndian : Bool) (v : Nat) : List Nat :=
  if littleEndian then [v % 256, v / 256 % 256] else [v / 256 % 256, v % 256]

/-- The file header bytes written by `TiffWriter.__init__`:
byte-order mark, then `pack('HHH', 43, 8, 0)` for BigTIFF or
`pack('H', 42)` for classic TIFF. -/
def tiffwriter_header (bigtiff : Bool) (littleEndian : Bool) : List Nat :=
  (if littleEndian then [73, 73] else [77, 77]) ++
    (if bigtiff then pack16 littleEndian 43 ++ pack16 littleEndian 8 ++ pack16 littleEndian 0
     else pack16 littleEndian 42)

/-! ### HDF5 format-version detection (io_plugins/hdf5.py, lines 84-96)

    def get_hspy_format_version(f):
        if "file_format_version" in f.attrs:
            version = f.attrs["file_format_version"]
            ...
        elif "Experiments" in f:
            # Chances are that this is a HSpy hdf5 file version 1.0
            version = "1.0"
        else:
            raise IOError(not_valid_format)
        return StrictVersion(version)
-/

def not_valid_format : String := "The file is not a valid HyperSpy hdf5 file"

/-- Versions are `StrictVersion` major.minor pairs, ordered
lexicographically. -/
def versionLt (a b : Nat × Nat) : Bool :=
  a.1 < b.1 || (a.1 = b.1 && a.2 < b.2)

/-- Root of an HDF5 file as far as version detection is concerned: the
optional (already parsed) `file_format_version` attribute and whether an
`Experiments` group exists. -/
structure H5Root where
  file_format_version : Option (Nat × Nat)
  hasExperiments : Bool

def get_hspy_format_version (root : H5Root) : Except String (Nat × Nat) :=
  match root.file_format_version with
  | some v => .ok v
  | none =>
    if root.hasExperiments then .ok (1, 0)
    else .error not_valid_format

/-- `file_reader` (lines 99-137) computes the format version before
anything else; an `IOError` from `get_hspy_format_version` propagates,
otherwise reading proceeds with the detected version. -/
def file_reader_version (root : H5Root) : Except String (Nat × Nat) :=
  get_hspy_format_version root

/-! ### TIFF page shape/axes derivation (external/tifffile.py, lines 1543-1655)

The tail of `TiffPage._process_tags` derives `self._shape` (the internal
6-tuple), `self.shape` and `self.axes` from the validated tags, branching
on the vendor dialect, and ends with

    assert len(self.shape) == len(self.axes)
-/

/-- The page attributes consulted by the shape/axes derivation.  Bool
fields stand for the source's property tests (`is_stk`, `is_contig`,
`is_palette`, `is_rgb`), `palette_big_enough` for
`color_map.shape[1] >= 2**bits_per_sample`, `stk_z_nonzero` for
`numpy.all(uic2tag.z_distance != 0)` and `stk_time_diff` for
`numpy.all(numpy.diff(uic2tag.time_created) != 0)`. -/
structure TiffPageInfo where
  is_stk : Bool
  is_contig : Bool
  is_palette : Bool
  is_rgb : Bool
  samples_per_pixel : Nat
  planes : Nat
  image_depth : Nat
  image_length : Nat
  image_width : Nat
  palette_big_enough : Bool
  stk_z_nonzero : Bool
  stk_time_diff : Bool
  has_extra_samples : Bool
  extra_samples_count : Nat

/-- Faithful port of the branch structure of lines 1549-1650; the result
is `(_shape, shape, axes)`.  The `if False and self.is_rgb ...` block
(lines 1631-1642) is dead code and therefore omitted. -/
def process_shape_axes (p : TiffPageInfo) : List Nat × List Nat × String :=
  let L := p.image_length
  let W := p.image_width
  let D := p.image_depth
  let S := p.samples_per_pixel
  if p.is_stk then
    let base :=
      if p.is_contig then
        if S = 1 then ([p.planes, 1, 1, L, W, S], [p.planes, L, W], "YX")
        else ([p.planes, 1, 1, L, W, S], [p.planes, L, W, S], "YXS")
      else
        if S = 1 then ([p.planes, S, 1, L, W, 1], [p.planes, L, W], "YX")
        else ([p.planes, S, 1, L, W, 1], [p.planes, S, L, W], "SYX")
    if p.planes = 1 then (base.1, base.2.1.drop 1, base.2.2)
    else if p.stk_z_nonzero then (base.1, base.2.1, "Z" ++ base.2.2)
    else if p.stk_time_diff then (base.1, base.2.1, "T" ++ base.2.2)
    else (base.1, base.2.1, "I" ++ base.2.2)
  else if p.is_palette then
    let samples := 1 + (if p.has_extra_samples then p.extra_samples_count else 0)
    let s6 := if p.is_contig then [1, 1, D, L, W, samples] else [1, samples, D, L, W, 1]
    if p.palette_big_enough then
      if D = 1 then (s6, [3, L, W], "CYX") else (s6, [3, D, L, W], "CZYX")
    else
      -- "palette cannot be applied" warning branch
      if D = 1 then (s6, [L, W], "YX") else (s6, [D, L, W], "ZYX")
  else if p.is_rgb || S > 1 then
    if p.is_contig then
      if D = 1 then ([1, 1, D, L, W, S], [L, W, S], "YXS")
      else ([1, 1, D, L, W, S], [D, L, W, S], "ZYXS")
    else
      if D = 1 then ([1, S, D, L, W, 1], [S, L, W], "SYX")
      else ([1, S, D, L, W, 1], [S, D, L, W], "SZYX")
  else
    if D = 1 then ([1, 1, D, L, W, 1], [L, W], "YX")
    else ([1, 1, D, L, W, 1], [D, L, W], "ZYX")

/-! ### TIFF tag naming and duplicate handling (external/tifffile.py)

`TiffTag._fromfile` (lines 2137-2142) picks the tag name:

    if code in TIFF_TAGS:
        name = TIFF_TAGS[code][0]
    elif code in CUSTOM_TAGS:
        name = CUSTOM_TAGS[code][0]
    else:
        name = unicode(code)

`TiffPage._fromfile` (lines 1418-1428) inserts it into the page's tag
mapping:

    if tag.name not in tags:
        tags[tag.name] = tag
    else:
        # some files contain multiple IFD with same code
        # e.g. MicroManager files contain two image_description
        i = 1
        while True:
            name = "%s_%i" % (tag.name, i)
            if name not in tags:
                tags[name] = tag
                break

Note that the body of the `while` never changes `i`.  The tag tables are
passed in as lookup functions; only the tags' names matter here, so the
mapping is modelled by its list of keys. -/

def tiff_tag_name (tiffTags customTags : Nat → Option String) (code : Nat) : String :=
  match tiffTags code with
  | some n => n
  | none =>
    match customTags code with
    | some n => n
    | none => toString code

/-- The `while True` loop: `i` stays 1 forever, so the loop is modelled
with fuel; `none` means the loop never terminated within the given
fuel. -/
def dup_loop (tags : List String) (base : String) (i : Nat) : Nat → Option (List String)
  | 0 => none
  | fuel + 1 =>
    let name := base ++ "_" ++ toString i
    if name ∈ tags then dup_loop tags base i fuel
    else some (tags ++ [name])

def insert_tag_name (tags : List String) (name : String) (fuel : Nat) :
    Option (List String) :=
  if name ∈ tags then dup_loop tags name 1 fuel
  else some (tags ++ [name])

/-! ### Python values for the HDF5 dictionary-tree codec

The value universe handled by `dict2hdfgroup`/`hdfgroup2dict` in
io_plugins/hdf5.py, restricted to the types the codec dispatches on
(no `Signal`/`DictionaryTreeBrowser`/`AxesManager` values occur in the
claims, so those branches have no inhabitant here):

* `pdict`  — nested mapping (Python `dict`),
* `arr`    — `numpy.ndarray` (element values opaque as `Int`),
* `plist`/`ptuple` — Python `list`/`tuple`,
* `pnone`  — `None`,
* `pdatetime` — a `datetime.date`/`datetime.time`, identified by its
  `repr` string (export stores `repr(value)` and import `eval`s it, so
  the repr is a faithful identity),
* `pbytes` — a Python 2 byte string (`str`),
* `pstr`   — a unicode string,
* `pint`   — a number stored by the final `group.attrs[key] = value`
  fallback branch. -/
inductive PValue where
  | pdict (es : List (String × PValue))
  | arr (shape : List Nat) (data : List Int)
  | plist (vs : List PValue)
  | ptuple (vs : List PValue)
  | pnone
  | pdatetime (r : String)
  | pbytes (bs : List Nat)
  | pstr (s : String)
  | pint (n : Int)

/-- Python-dict lookup on the association-list model. -/
def getKey : List (String × PValue) → String → Option PValue
  | [], _ => none
  | (k, v) :: rest, key => if k = key then some v else getKey rest key

/-- Python-dict assignment: replace in place if the key exists,
append otherwise. -/
def setKey : List (String × PValue) → String → PValue → List (String × PValue)
  | [], key, v => [(key, v)]
  | (k, w) :: rest, key, v =>
    if k = key then (k, v) :: rest else (k, w) :: setKey rest key v

/-- Python `del d[key]`. -/
def delKey : List (String × PValue) → String → List (String × PValue)
  | [], _ => []
  | (k, w) :: rest, key =>
    if k = key then delKey rest key else (k, w) :: delKey rest key

/-! ### HDF5 metadata version migration (io_plugins/hdf5.py)

`hdfgroup2signaldict`, lines 190-216 and 291-302:

    if "General" in exp["metadata"] and "title" in exp["metadata"]["General"]:
        if '__unnamed__' == exp['metadata']['General']['title']:
            exp['metadata']["General"]['title'] = ''

    if current_file_version < StrictVersion("1.1"):
        ...
        if 'signal' in exp['metadata']:
            if "Signal" not in exp["metadata"]:
                exp["metadata"]["Signal"] = {}
            exp['metadata']["Signal"]['signal_type'] = exp['metadata']['signal']
            del exp['metadata']['signal']
        if 'name' in exp['metadata']:
            if "General" not in exp["metadata"]:
                exp["metadata"]["General"] = {}
            exp['metadata']['General']['title'] = exp['metadata']['name']
            del exp['metadata']['name']

    if current_file_version < StrictVersion("1.2"):
        ...
        for key in ["title", "date", "time", "original_filename"]:
            if key in exp["metadata"]: (move into "General")
        for key in ["record_by", "signal_origin", "signal_type"]:
            if key in exp["metadata"]: (move into "Signal")
-/

/-- Lines 190-192.  (If `"General"` maps to a non-dict the source's
`in` test would be a substring/containment test on that value; such
metadata never arises from the writer and is treated as "no title"
here.) -/
def fix_unnamed_title (md : List (String × PValue)) : List (String × PValue) :=
  match getKey md "General" with
  | some (.pdict g) =>
    match getKey g "title" with
    | some (.pstr s) =>
      if s = "__unnamed__" then setKey md "General" (.pdict (setKey g "title" (.pstr "")))
      else md
    | _ => md
  | _ => md

/-- The common shape of the four flat-key moves quoted above: if `flat`
is present, create the `group` sub-dict when missing, copy the value to
`group[newKey]`, delete the flat key.  A non-dict value under `group`
would make the Python item assignment raise (`TypeError`). -/
def move_flat_key (md : List (String × PValue)) (flat group newKey : String) :
    Except String (List (String × PValue)) :=
  match getKey md flat with
  | none => .ok md
  | some v =>
    let md1 := if (getKey md group).isSome then md else setKey md group (.pdict [])
    match getKey md1 group with
    | some (.pdict g) => .ok (delKey (setKey md1 group (.pdict (setKey g newKey v))) flat)
    | _ => .error "TypeError"

def move_flat_keys (group : String) :
    List (String × PValue) → List String → Except String (List (String × PValue))
  | md, [] => .ok md
  | md, k :: ks =>
    match move_flat_key md k group k with
    | .ok md1 => move_flat_keys group md1 ks
    | .error e => .error e

/-- The metadata transformation performed by `hdfgroup2signaldict` for
the keys at issue.  The version-`< 1.2` passes that re-parent
`_internal_parameters`, `Variance_estimation`, `TEM`, `SEM` and
`Sample.Xray_lines` (lines 218-290) touch neither `Signal` nor
`General` nor any key this model carries; they are omitted, so the model
is faithful for metadata without those keys. -/
def hdfgroup2signaldict_meta (version : Nat × Nat) (md : List (String × PValue)) :
    Except String (List (String × PValue)) :=
  let md0 := fix_unnamed_title md
  let step1 :=
    if versionLt version (1, 1) then
      match move_flat_key md0 "signal" "Signal" "signal_type" with
      | .ok md1 => move_flat_key md1 "name" "General" "title"
      | .error e => .error e
    else .ok md0
  match step1 with
  | .error e => .error e
  | .ok md2 =>
    if versionLt version (1, 2) then
      match move_flat_keys "General" md2 ["title", "date", "time", "original_filename"] with
      | .ok md3 => move_flat_keys "Signal" md3 ["record_by", "signal_origin", "signal_type"]
      | .error e => .error e
    else .ok md2

/-! ### HDF5 dictionary-tree codec (io_plugins/hdf5.py, lines 307-468)

The on-disk side: an h5py group is a list of named attributes, named
datasets and named subgroups (attributes live in a separate namespace
from datasets/groups).  `load_to_memory` is `True` throughout. -/

/-- h5py attribute values produced by the exporter: unicode strings,
`np.void` opaque byte blocks (the `_bs_` escape) and numbers. -/
inductive HVal where
  | hstr (s : String)
  | hvoid (bs : List Nat)
  | hint (n : Int)

/-- h5py datasets produced by the exporter: numeric arrays, vlen unicode
string arrays, and fixed byte-string (`|S`) arrays. -/
inductive HDataset where
  | ints (shape : List Nat) (data : List Int)
  | strs (elems : List String)
  | bytesD (elems : List (List Nat))

inductive HEntry where
  | attr (name : String) (v : HVal)
  | dset (name : String) (d : HDataset)
  | sub (name : String) (g : List HEntry)

/-- `p.isPrefixOf s` on character lists; `key.startswith(p)`. -/
def charsPre : List Char → List Char → Bool
  | [], _ => true
  | _ :: _, [] => false
  | a :: as, b :: bs => a == b && charsPre as bs

def strHasPre (p s : String) : Bool := charsPre p.data s.data

/-- `key[n:]`. -/
def strDropn (n : Nat) (s : String) : String := String.mk (s.data.drop n)

/-- `key.find('_')` (`none` for -1). -/
def findUnd : List Char → Option Nat
  | [] => none
  | c :: cs => if c = '_' then some 0 else (findUnd cs).map (· + 1)

/-- `key[tagLen + 1 + key[tagLen:].find('_'):]`, the key recovery for
`_list_<n>_<key>` group names in `hdfgroup2dict` (lines 455, 459). -/
def stripIndexedName (tagLen : Nat) (s : String) : String :=
  let suf := s.data.drop tagLen
  match findUnd suf with
  | some p => String.mk (suf.drop (p + 1))
  | none => String.mk suf

/-- Left-to-right non-overlapping replacement of `pat` by the empty
string (`key.replace(pat, "")`); the counter skips the remainder of a
match that has already been consumed. -/
def replaceAux (pat : List Char) : List Char → Nat → List Char
  | [], _ => []
  | c :: cs, 0 =>
    if charsPre pat (c :: cs) then replaceAux pat cs (pat.length - 1)
    else c :: replaceAux pat cs 0
  | _ :: cs, k + 1 => replaceAux pat cs k

def strReplaceEmpty (pat s : String) : String := String.mk (replaceAux pat.data s.data 0)

/-- ASCII decode of a Python 2 byte string (`value.decode()`). -/
def decodeBytes (bs : List Nat) : String := String.mk (bs.map Char.ofNat)

/-- Elements that force `np.array(value)` to produce an object array or
an array of dimension ≠ 1, sending `parse_structure` to the indexed
sub-group branch: dicts, `None`, datetimes, nested sequences, and
arrays of dimension ≥ 1 (equal shapes stack to `ndim ≥ 2`, ragged
shapes give dtype object, and a mix with scalars gives dtype object or
a `ValueError` caught into the 2-dim `[[0]]` fallback — every case ends
in the indexed branch).  A 0-dimensional array does NOT force the
indexed branch: numpy treats it as a scalar. -/
def isObjForcing : PValue → Bool
  | .pdict _ => true
  | .pnone => true
  | .pdatetime _ => true
  | .plist _ => true
  | .ptuple _ => true
  | .arr (_ :: _) _ => true
  | _ => false

def isIntV : PValue → Bool
  | .pint _ => true
  | _ => false

/-- Elements numpy treats as integer scalars when building an array from
a list: Python ints/longs and 0-dimensional integer arrays. -/
def isIntLike : PValue → Bool
  | .pint _ => true
  | .arr [] _ => true
  | _ => false

/-- The integer value of an int-like element (a 0-dim array holds one
value). -/
def scalarInt : PValue → Int
  | .pint n => n
  | .arr _ d => d.headD 0
  | _ => 0

/-- The value fits numpy's `int64`. -/
def fitsInt64 (n : Int) : Bool := decide (-(2 ^ 63) ≤ n) && decide (n < 2 ^ 63)

/-- The value fits numpy's `uint64`. -/
def fitsUInt64 (n : Int) : Bool := decide (0 ≤ n) && decide (n < 2 ^ 64)

def isStrV : PValue → Bool
  | .pstr _ => true
  | _ => false

/-- The dtype/ndim classification `parse_structure` performs through
`np.array(value)` (lines 311-322): object/multidimensional arrays go to
the indexed sub-group branch; otherwise a list of integer scalars is a
numeric array when the values fit a common machine integer type (numpy
picks `int64`, or `uint64` when all are non-negative; a Python long
outside both ranges makes the dtype object, which also lands in the
indexed branch); a list containing a unicode string coerces to a
unicode array (numpy stringifies int and 0-dim-array elements), and the
remaining (byte-string) lists give `|S` arrays. -/
inductive ArrKind where
  | ints | strs | bytesK | obj

def arrKind (vs : List PValue) : ArrKind :=
  if vs.any isObjForcing then .obj
  else if vs.all isIntLike then
    if (vs.map scalarInt).all fitsInt64 || (vs.map scalarInt).all fitsUInt64 then .ints
    else .obj
  else if vs.any isStrV then .strs
  else .bytesK

def intsOf (vs : List PValue) : List Int := vs.map scalarInt

def strsOf (vs : List PValue) : List String :=
  vs.map fun v =>
    match v with
    | .pstr s => s
    | .pint n => toString n
    | .arr _ d => toString (d.headD 0)
    | .pbytes bs => decodeBytes bs
    | _ => ""

def bytesOf (vs : List PValue) : List (List Nat) :=
  vs.map fun v =>
    match v with
    | .pbytes bs => bs
    | .pint n => (toString n).data.map Char.toNat
    | .arr _ d => (toString (d.headD 0)).data.map Char.toNat
    | _ => []

/-! `dict2hdfgroup` (lines 307-394).  Every branch stores exactly one
named object; the inner helper `parse_structure` (lines 311-337) is
inlined into the `plist`/`ptuple` cases (Lean's structural recursion
needs the indexed-subgroup recursion spelled out as `exportIndexed`,
which builds the group for `dict(izip(map(unicode, range(len(value))),
value))` entry by entry).  The `DictionaryTreeBrowser`/`Signal`/
`AxesManager`/`Undefined` branches have no inhabitants in `PValue`. -/
mutual
def dict2hdfgroup : List (String × PValue) → List HEntry
  | [] => []
  | (key, value) :: rest => exportEntry key value :: dict2hdfgroup rest

def exportEntry (key : String) (value : PValue) : HEntry :=
  match value with
  | .pdict es => .sub key (dict2hdfgroup es)
  | .arr shape data => .dset key (.ints shape data)
  | .pnone => .attr key (.hstr "_None_")
  | .pbytes bs =>
    -- '\x00' in value → np.void under '_bs_'; else stored decoded
    if bs.contains 0 then .attr ("_bs_" ++ key) (.hvoid bs)
    else .attr key (.hstr (decodeBytes bs))
  | .pstr s => .attr key (.hstr s)
  | .pdatetime r => .attr ("_datetime_" ++ key) (.hstr r)
  | .plist vs =>
    if vs.length ≠ 0 then
      match arrKind vs with
      | .obj => .sub ("_list_" ++ toString vs.length ++ "_" ++ key) (exportIndexed 0 vs)
      | .ints => .dset ("_list_" ++ key) (.ints [vs.length] (intsOf vs))
      | .strs => .dset ("_list_" ++ key) (.strs (strsOf vs))
      | .bytesK => .dset ("_list_" ++ key) (.bytesD (bytesOf vs))
    else .attr ("_list_empty_" ++ key) (.hstr "_None_")
  | .ptuple vs =>
    if vs.length ≠ 0 then
      match arrKind vs with
      | .obj => .sub ("_tuple_" ++ toString vs.length ++ "_" ++ key) (exportIndexed 0 vs)
      | .ints => .dset ("_tuple_" ++ key) (.ints [vs.length] (intsOf vs))
      | .strs => .dset ("_tuple_" ++ key) (.strs (strsOf vs))
      | .bytesK => .dset ("_tuple_" ++ key) (.bytesD (bytesOf vs))
    else .attr ("_tuple_empty_" ++ key) (.hstr "_None_")
  | .pint n => .attr key (.hint n)

def exportIndexed (i : Nat) : List PValue → List HEntry
  | [] => []
  | v :: vs => exportEntry (toString i) v :: exportIndexed (i + 1) vs
end

/-- One step of the attribute loop of `hdfgroup2dict` (lines 400-424):
value conversion (`'_None_'` → `None`; `np.void` read back via
`tostring()`) followed by the key-tag dispatch, in source order. -/
def importAttrOne (d : List (String × PValue)) (key : String) (v : HVal) :
    List (String × PValue) :=
  let value : PValue :=
    match v with
    | .hstr s => if s = "_None_" then .pnone else .pstr s
    | .hvoid bs => .pbytes bs
    | .hint n => .pint n
  if strHasPre "_sig_" key then d
  else if strHasPre "_list_empty_" key then setKey d (strDropn 12 key) (.plist [])
  else if strHasPre "_tuple_empty_" key then setKey d (strDropn 13 key) (.ptuple [])
  else if strHasPre "_bs_" key then setKey d (strDropn 4 key) value
  else if strHasPre "_datetime_" key then
    -- eval of the stored repr returns the datetime it denotes
    setKey d (strReplaceEmpty "_datetime_" key)
      (match value with
       | .pstr s => .pdatetime s
       | x => x)
  else setKey d key value

def importAttrs : List HEntry → List (String × PValue) → List (String × PValue)
  | [], d => d
  | .attr name v :: rest, d => importAttrs rest (importAttrOne d name v)
  | _ :: rest, d => importAttrs rest d

/-- Python 2 lexicographic string comparison by code point, the order
used by `sorted(iter(dictionary.items()))` on string keys. -/
def charsLe : List Char → List Char → Bool
  | [], _ => true
  | _ :: _, [] => false
  | a :: as, b :: bs =>
    if a.toNat < b.toNat then true
    else if b.toNat < a.toNat then false
    else charsLe as bs

def strLe (a b : String) : Bool := charsLe a.data b.data

def insKey (p : String × PValue) : List (String × PValue) → List (String × PValue)
  | [] => [p]
  | q :: qs => if strLe p.1 q.1 then p :: q :: qs else q :: insKey p qs

/-- `sorted(...)` over (key, value) pairs; keys are pairwise distinct in
every use, so any comparison sort computes the same list. -/
def sortKey : List (String × PValue) → List (String × PValue)
  | [] => []
  | p :: ps => insKey p (sortKey ps)

/-- Dataset naming in the object loop of `hdfgroup2dict`
(lines 432-448): `_list_`/`_tuple_` datasets lose their tag. -/
def dsetKeyName (name : String) : String :=
  if strHasPre "_list_" name then strDropn 6 name
  else if strHasPre "_tuple_" name then strDropn 7 name
  else name

/-- `np.array(group[key]).tolist()`. -/
def dsetList : HDataset → List PValue
  | .ints _ data => data.map PValue.pint
  | .strs elems => elems.map PValue.pstr
  | .bytesD elems => elems.map PValue.pbytes

def dsetValue (name : String) (ds : HDataset) : PValue :=
  if strHasPre "_list_" name then .plist (dsetList ds)
  else if strHasPre "_tuple_" name then .ptuple (dsetList ds)
  else
    match ds with
    | .ints shape data => .arr shape data
    | ds => .plist (dsetList ds)  -- string dataset under a plain key: unreachable from the exporter

/-! The object loop of `hdfgroup2dict` (lines 425-467).  `_sig_` and
`_hspy_AxesManager_` groups have no inhabitants here (no `Signal`/
`AxesManager` values).  For an indexed `_list_`/`_tuple_` group the
sub-dictionary is imported into a fresh dict and its items are read
back sorted by key; for a plain subgroup a fresh dict is filled
recursively (`hdfgroup2dict(group[key], dictionary[key])`, spelled out
as the two passes because the wrapper is defined afterwards). -/
mutual
def importObjs : List HEntry → List (String × PValue) → List (String × PValue)
  | [], d => d
  | e :: rest, d => importObjs rest (importObjOne e d)

def importObjOne : HEntry → List (String × PValue) → List (String × PValue)
  | .attr _ _, d => d
  | .dset name ds, d => setKey d (dsetKeyName name) (dsetValue name ds)
  | .sub name g, d =>
    if strHasPre "_sig_" name then d
    else if strHasPre "_hspy_AxesManager_" name then d
    else if strHasPre "_list_" name then
      setKey d (stripIndexedName 6 name)
        (.plist ((sortKey (importObjs g (importAttrs g []))).map Prod.snd))
    else if strHasPre "_tuple_" name then
      setKey d (stripIndexedName 7 name)
        (.ptuple ((sortKey (importObjs g (importAttrs g []))).map Prod.snd))
    else
      setKey d name (.pdict (importObjs g (importAttrs g [])))
end

def hdfgroup2dict (g : List HEntry) (dictionary : List (String × PValue)) :
    List (String × PValue) :=
  importObjs g (importAttrs g dictionary)

/-- Round trip of a dictionary through export and import. -/
def rtDict (es : List (String × PValue)) : List (String × PValue) :=
  hdfgroup2dict (dict2hdfgroup es) []

/-- The association list `{str(i): v for i, v in enumerate(vs)}` built
for the indexed sub-group export. -/
def idxAssoc (i : Nat) : List PValue → List (String × PValue)
  | [] => []
  | v :: vs => (toString i, v) :: idxAssoc (i + 1) vs

/-! ### Canonical form for Python dict equality

Python `==` on dicts ignores entry order; `pnorm` sorts every dict level
by key (keys are unique), so two values are `==` in Python iff their
normal forms are equal.  Lists and tuples stay order-sensitive. -/
mutual
def pnorm : PValue → PValue
  | .pdict es => .pdict (sortKey (pnormEntries es))
  | .plist vs => .plist (pnormList vs)
  | .ptuple vs => .ptuple (pnormList vs)
  | .arr shape data => .arr shape data
  | .pnone => .pnone
  | .pdatetime r => .pdatetime r
  | .pbytes bs => .pbytes bs
  | .pstr s => .pstr s
  | .pint n => .pint n

def pnormEntries : List (String × PValue) → List (String × PValue)
  | [] => []
  | (k, v) :: rest => (k, pnorm v) :: pnormEntries rest

def pnormList : List PValue → List PValue
  | [] => []
  | v :: vs => pnorm v :: pnormList vs
end

def pnormDict (es : List (String × PValue)) : List (String × PValue) :=
  sortKey (pnormEntries es)

/-! ### Well-formedness for the round-trip theorem -/

/-- Values whose export is a group attribute (the import then handles
them in the first loop). -/
def isAttrVal : PValue → Bool
  | .pnone => true
  | .pbytes _ => true
  | .pstr _ => true
  | .pdatetime _ => true
  | .pint _ => true
  | .plist vs => vs.length == 0
  | .ptuple vs => vs.length == 0
  | .pdict _ => false
  | .arr _ _ => false

/-- Occurrence test for a pattern anywhere in a character list. -/
def containsPat (pat : List Char) : List Char → Bool
  | [] => false
  | c :: cs => charsPre pat (c :: cs) || containsPat pat cs

/-- `"<digits>_..."` keys are excluded: such a key would make a
homogeneous `_list_<key>` dataset name collide with an indexed
`_list_<n>_<key2>` group name, which `create_group` would reject. -/
def digitUndTail : List Char → Bool
  | [] => false
  | c :: cs => c = '_' || (c.isDigit && digitUndTail cs)

def digitUndKey : List Char → Bool
  | [] => false
  | c :: cs => c.isDigit && digitUndTail cs

/-- Keys a user dictionary may use without colliding with the codec's
reserved tags: no reserved tag as a prefix, no `_datetime_` occurrence
anywhere (the import strips the tag with `str.replace`, which deletes
every occurrence), and no leading `<digits>_`. -/
def goodKey (k : String) : Bool :=
  !strHasPre "_sig_" k && !strHasPre "_list_" k && !strHasPre "_tuple_" k &&
  !strHasPre "_bs_" k && !strHasPre "_datetime_" k &&
  !strHasPre "_hspy_AxesManager_" k &&
  !containsPat "_datetime_".data k.data &&
  !digitUndKey k.data

def strsNodup : List String → Bool
  | [] => true
  | s :: rest => !rest.contains s && strsNodup rest

/-- Adjacent key-sortedness (used for the digit keys of indexed
groups). -/
def strsChainLe : List String → Bool
  | [] => true
  | [_] => true
  | a :: b :: r => strLe a b && strsChainLe (b :: r)

/-! The supported-value grammar of the round-trip claim: the enumerated
types, closed under nesting, with the constraints under which the codec
is actually injective: dict keys are `goodKey`-clean and distinct;
string values are never the literal `'_None_'` sentinel (it would read
back as `None`); datetime reprs likewise; byte strings contain a NUL
(NUL-free ones are stored decoded and read back as unicode); integers
fit numpy's `int64` (a Python long beyond it makes the h5py attribute
store fail, dropping the value in the bare `except`); sequences are
either homogeneous int/string lists (stored as datasets — lists whose
int-like elements include a 0-dim array are excluded, because numpy
collapses the 0-dim arrays to scalars and the import returns plain
ints, losing the ndarray type) or indexed sub-groups of at most 10
supported elements — the bound is the amendment forced by the
lexicographic key sort on import. -/
mutual
def Supported : PValue → Bool
  | .pdict es => strsNodup (es.map Prod.fst) && SupportedEntries es
  | .arr _ _ => true
  | .plist vs =>
    (match arrKind vs with
     | .ints => vs.all isIntV
     | .strs => vs.all isStrV
     | .bytesK => false
     | .obj => decide (vs.length ≤ 10) && SupportedList vs)
  | .ptuple vs =>
    (match arrKind vs with
     | .ints => vs.all isIntV
     | .strs => vs.all isStrV
     | .bytesK => false
     | .obj => decide (vs.length ≤ 10) && SupportedList vs)
  | .pnone => true
  | .pdatetime r => !(r == "_None_")
  | .pbytes bs => bs.contains 0
  | .pstr s => !(s == "_None_")
  | .pint n => fitsInt64 n

def SupportedEntries : List (String × PValue) → Bool
  | [] => true
  | (k, v) :: rest => goodKey k && Supported v && SupportedEntries rest

def SupportedList : List PValue → Bool
  | [] => true
  | v :: vs => Supported v && SupportedList vs
end

/-- Well-formed dictionary: distinct clean keys, supported values. -/
def WFDict (es : List (String × PValue)) : Bool :=
  strsNodup (es.map Prod.fst) && SupportedEntries es

/-! Sizes for the strong induction. -/
mutual
def pvSize : PValue → Nat
  | .pdict es => 1 + pvSizeE es
  | .plist vs => 1 + pvSizeL vs
  | .ptuple vs => 1 + pvSizeL vs
  | _ => 1

def pvSizeE : List (String × PValue) → Nat
  | [] => 0
  | (_, v) :: rest => pvSize v + pvSizeE rest

def pvSizeL : List PValue → Nat
  | [] => 0
  | v :: vs => pvSize v + pvSizeL vs
end


/-! ### TIFF LZW strip decoder (external/tifffile.py, decodelzw, lines 3166-3249)

`decodelzw(encoded)` decompresses one LZW-encoded TIFF strip.  The embedding
models the byte string as `List Nat` (each element a byte value) and the
unbounded `while True` loop as a fuel-indexed recursion; each iteration
consumes at least 9 bits and the loop stops as soon as `bitcount >=
bitcount_max = 8 * len(encoded)`, so `len(encoded) + 4` units of fuel are
never exhausted (running out of fuel returns the partial result, a branch
shown unreachable through `lzwSpecLoop_no_fuel` below).

`next_code` embeds the inner helper: the strip bytes from `bitcount // 8`
are zero-padded to a 4-byte window (the `except` branch of the source),
unpacked big-endian (`'>I'`), shifted left by `bitcount % 8`, masked and
shifted right.  Python's `table[code]` raises `IndexError` on a corrupt
stream; lookups are modelled with `List.getD _ _ []`, and the refinement
theorem only ever relies on in-range indices.  The two non-string
placeholder entries `(0, 0)` appended to the initial table are modelled as
`[]`.  In the source `table`/`lentable` are unbound until the first CLEAR
code (guaranteed by the start-of-strip check); the model seeds them with
the post-CLEAR values, which the first iteration overwrites. -/

/-- The fresh 258-entry string table: 256 single-byte strings plus the two
placeholder entries (`newtable.extend((0, 0))`). -/
def newtable : List (List Nat) := ((List.range 256).map (fun i => [i])) ++ [[], []]

/-- The 4-byte window at byte offset `start`, zero-padded at the end of the
strip (`s + '\x00' * (4 - len(s))`). -/
def lzwWindow (encoded : List Nat) (start : Nat) : List Nat :=
  let s := (encoded.drop start).take 4
  s ++ List.replicate (4 - s.length) 0

/-- `next_code()`: the `shr`-shifted masked big-endian read of the window at
bit position `bitcount`. -/
def next_code (encoded : List Nat) (bitcount shr mask : Nat) : Nat :=
  ((beNat (lzwWindow encoded (bitcount / 8)) <<< (bitcount % 8)) &&& mask) >>> shr

/-- The `switchbitch` dictionary: bit-width, right-shift and mask keyed by
table length (`int(w * '1' + shr * '0', 2)` masks written as products). -/
def switchbitch (n : Nat) : Option (Nat × Nat × Nat) :=
  if n = 255 then some (9, 23, 511 * 2 ^ 23)
  else if n = 511 then some (10, 22, 1023 * 2 ^ 22)
  else if n = 1023 then some (11, 21, 2047 * 2 ^ 21)
  else if n = 2047 then some (12, 20, 4095 * 2 ^ 20)
  else none

/-- `if lentable in switchbitch: bitw, shr, mask = switchbitch[lentable]`. -/
def lzwParams (bitw shr mask n : Nat) : Nat × Nat × Nat :=
  match switchbitch n with
  | some p => p
  | none => (bitw, shr, mask)

/-- The mutable locals of the `while True` loop in `decodelzw`. -/
structure LzwState where
  table : List (List Nat)
  lentable : Nat
  bitw : Nat
  shr : Nat
  mask : Nat
  bitcount : Nat
  oldcode : Nat
  result : List (List Nat)

/-- One-for-one embedding of the `while True` loop of `decodelzw` (fuel
recursion; each branch mirrors the source: EOI / bitcount break, CLEAR
reset with its immediately following literal, and the ordinary
table-growing step followed by the `switchbitch` width update). -/
def lzwLoop (encoded : List Nat) (bmax : Nat) : Nat → LzwState → List (List Nat)
  | 0, st => st.result
  | fuel + 1, st =>
    let code := next_code encoded st.bitcount st.shr st.mask
    let bc := st.bitcount + st.bitw
    if code = 257 ∨ bmax ≤ bc then st.result
    else if code = 256 then
      let code2 := next_code encoded bc 23 (511 * 2 ^ 23)
      if code2 = 257 then st.result
      else
        lzwLoop encoded bmax fuel
          { table := newtable, lentable := 258, bitw := 9, shr := 23,
            mask := 511 * 2 ^ 23, bitcount := bc + 9, oldcode := code2,
            result := st.result ++ [newtable.getD code2 []] }
    else
      let decoded :=
        if code < st.lentable then st.table.getD code []
        else st.table.getD st.oldcode [] ++ (st.table.getD st.oldcode []).take 1
      let newcode :=
        if code < st.lentable then st.table.getD st.oldcode [] ++ (st.table.getD code []).take 1
        else st.table.getD st.oldcode [] ++ (st.table.getD st.oldcode []).take 1
      let p := lzwParams st.bitw st.shr st.mask (st.lentable + 1)
      lzwLoop encoded bmax fuel
        { table := st.table ++ [newcode], lentable := st.lentable + 1,
          bitw := p.1, shr := p.2.1, mask := p.2.2, bitcount := bc,
          oldcode := code, result := st.result ++ [decoded] }

/-- `decodelzw`: the two `ValueError`s and the joined result list. -/
def decodelzw (encoded : List Nat) : Except String (List Nat) :=
  if encoded.length < 4 then Except.error "strip must be at least 4 characters long"
  else if next_code encoded 0 23 (511 * 2 ^ 23) ≠ 256 then
    Except.error "strip must begin with CLEAR code"
  else
    Except.ok (List.flatten (lzwLoop encoded (encoded.length * 8) (encoded.length + 4)
      { table := newtable, lentable := 258, bitw := 9, shr := 23,
        mask := 511 * 2 ^ 23, bitcount := 0, oldcode := 0, result := [] }))

/-! #### Specification-side LZW decoder

The following definitions are written from the documented TIFF LZW
algorithm (the spec wording), not from the source, and are compared with
`decodelzw` by refinement: codes are read bit by bit, most significant
first; the code width is 9 bits for dictionary sizes below 511, widening
to 10/11/12 exactly at sizes 511, 1023 and 2047; code 256 resets the
dictionary to the initial 258-entry table and is followed by a literal;
code 257 ends the stream. -/

/-- Bit `i` (MSB-first within each byte) of the encoded strip; bits past the
end read as zero. -/
def bitAt (encoded : List Nat) (i : Nat) : Nat :=
  encoded.getD (i / 8) 0 / 2 ^ (7 - i % 8) % 2

/-- The `w`-bit big-endian code starting at bit position `pos`. -/
def codeAt (encoded : List Nat) (pos w : Nat) : Nat :=
  (List.range w).foldl (fun acc j => 2 * acc + bitAt encoded (pos + j)) 0

/-- Documented code width as a function of the dictionary size: 9 bits,
widening by one at sizes 511, 1023, 2047. -/
def lzwWidth (t : Nat) : Nat :=
  if t < 511 then 9 else if t < 1023 then 10 else if t < 2047 then 11 else 12

/-- Result of the specification decoder: a decoded string list, a rejected
stream, or fuel exhaustion. -/
inductive LzwRes where
  | done (out : List (List Nat))
  | bad
  | outOfFuel
deriving DecidableEq

/-- Specification decoding loop: dictionary, bit position and previous code
as plain arguments, width always `lzwWidth` of the dictionary size. -/
def lzwSpecLoop (encoded : List Nat) (bmax : Nat) :
    Nat → List (List Nat) → Nat → Nat → List (List Nat) → LzwRes
  | 0, _, _, _, _ => .outOfFuel
  | fuel + 1, table, pos, prev, out =>
    let w := lzwWidth table.length
    let code := codeAt encoded pos w
    if code = 257 then .done out
    else if bmax ≤ pos + w then .bad
    else if code = 256 then
      let code2 := codeAt encoded (pos + w) 9
      if code2 = 257 then .done out
      else if code2 < 256 then
        lzwSpecLoop encoded bmax fuel newtable (pos + w + 9) code2
          (out ++ [newtable.getD code2 []])
      else .bad
    else if code < table.length then
      lzwSpecLoop encoded bmax fuel
        (table ++ [table.getD prev [] ++ (table.getD code []).take 1]) (pos + w) code
        (out ++ [table.getD code []])
    else if code = table.length then
      lzwSpecLoop encoded bmax fuel
        (table ++ [table.getD prev [] ++ (table.getD prev []).take 1]) (pos + w) code
        (out ++ [table.getD prev [] ++ (table.getD prev []).take 1])
    else .bad

/-- Specification decoder: a strip shorter than 4 bytes or not starting with
CLEAR is rejected; otherwise the loop output is joined. -/
def lzwSpecDecode (encoded : List Nat) : Option (List Nat) :=
  if encoded.length < 4 then none
  else if codeAt encoded 0 9 ≠ 256 then none
  else
    match lzwSpecLoop encoded (encoded.length * 8) (encoded.length + 4) newtable 0 0 [] with
    | .done out => some out.flatten
    | _ => none

/-! ## Theorems -/

/-- C3: in the DM3/DM4 reader, `skipif4` advances the cursor (by 4 bytes
per structural read) exactly when the parsed version is 4 and never for
version 3, and `parse_header` raises immediately when the leading 4-byte
big-endian version field is neither 3 nor 4.  For version-3 files the
file-size field is read at offset 4 with no extra skip; for version-4
files it is read at offset 8, i.e. after the extra 4-byte skip. -/
theorem dm_version_gating :
    (∀ pos n, skipif4 3 pos n = pos) ∧
    (∀ pos n, skipif4 4 pos n = pos + 4 * n) ∧
    (∀ (f : List Nat) (v : Int), read_long_big f 0 = some (v, 4) →
      v ≠ 3 → v ≠ 4 →
      parse_header f = .error "Currently we only support reading DM versions 3 and 4") ∧
    (∀ f : List Nat, 12 ≤ f.length → beNat (f.take 4) = 3 →
      parse_header f = .ok
        { dm_version := 3
          filesizeB := toSigned32 (beNat ((f.drop 4).take 4))
          endian := if toSigned32 (beNat ((f.drop 8).take 4)) ≠ 0 then "little" else "big"
          endPos := 12 }) ∧
    (∀ f : List Nat, 16 ≤ f.length → beNat (f.take 4) = 4 →
      parse_header f = .ok
        { dm_version := 4
          filesizeB := toSigned32 (beNat ((f.drop 8).take 4))
          endian := if toSigned32 (beNat ((f.drop 12).take 4)) ≠ 0 then "little" else "big"
          endPos := 16 }) := by
  refine ⟨fun pos n => by simp [skipif4], fun pos n => by simp [skipif4], ?_, ?_, ?_⟩
  · intro f v hv h3 h4
    simp only [parse_header, hv]
    rw [if_pos ⟨h3, h4⟩]
  · intro f hlen hv
    have hr0 : read_long_big f 0 = some (3, 4) := by
      simp only [read_long_big, if_pos (show 0 + 4 ≤ f.length by omega), List.drop_zero, hv]
      norm_num [toSigned32]
    have hr4 : read_long_big f 4 = some (toSigned32 (beNat ((f.drop 4).take 4)), 8) := by
      simp only [read_long_big, if_pos (show 4 + 4 ≤ f.length by omega)]
    have hr8 : read_long_big f 8 = some (toSigned32 (beNat ((f.drop 8).take 4)), 12) := by
      simp only [read_long_big, if_pos (show 8 + 4 ≤ f.length by omega)]
    simp [parse_header, hr0, skipif4, hr4, hr8]
  · intro f hlen hv
    have hr0 : read_long_big f 0 = some (4, 4) := by
      simp only [read_long_big, if_pos (show 0 + 4 ≤ f.length by omega), List.drop_zero, hv]
      norm_num [toSigned32]
    have hr8 : read_long_big f 8 = some (toSigned32 (beNat ((f.drop 8).take 4)), 12) := by
      simp only [read_long_big, if_pos (show 8 + 4 ≤ f.length by omega)]
    have hr12 : read_long_big f 12 = some (toSigned32 (beNat ((f.drop 12).take 4)), 16) := by
      simp only [read_long_big, if_pos (show 12 + 4 ≤ f.length by omega)]
    simp [parse_header, hr0, skipif4, hr8, hr12]

/-- Witness for C3 theorem at concrete files: a version-5 file raises, a
version-3 file parses with the size field taken from offset 4, a
version-4 file from offset 8. -/
theorem dm_version_gating_witness :
    parse_header [0, 0, 0, 5, 0, 0, 0, 9, 0, 0, 0, 1] =
      .error "Currently we only support reading DM versions 3 and 4" ∧
    parse_header [0, 0, 0, 3, 0, 0, 0, 9, 0, 0, 0, 1] =
      .ok { dm_version := 3, filesizeB := 9, endian := "little", endPos := 12 } ∧
    parse_header [0, 0, 0, 4, 9, 9, 9, 9, 0, 0, 0, 7, 0, 0, 0, 0] =
      .ok { dm_version := 4, filesizeB := 7, endian := "big", endPos := 16 } := by
  refine ⟨?_, ?_, ?_⟩
  · exact dm_version_gating.2.2.1 _ 5 (by decide) (by decide) (by decide)
  · have h := dm_version_gating.2.2.2.1 [0, 0, 0, 3, 0, 0, 0, 9, 0, 0, 0, 1]
      (by decide) (by decide)
    simpa using h
  · have h := dm_version_gating.2.2.2.2 [0, 0, 0, 4, 9, 9, 9, 9, 0, 0, 0, 7, 0, 0, 0, 0]
      (by decide) (by decide)
    simpa using h

/-- C4: when the declared element count (the product of the declared
array shape) exceeds the number of recorded values, the SER reader's
padding step succeeds (no exception) and returns a flat array of exactly
the declared size whose head is the recorded data in order; the tail is
NaN-filled for the floating dtypes (`<f4`, `<f8`) and zero-filled for
the integer dtypes. -/
theorem ser_padding
    (dtype : SerDtype) (array_shape : List Nat) (recorded : List SerCell)
    (hlt : recorded.length < array_shape.prod) :
    ∃ dc, serPad dtype array_shape recorded = some dc ∧
      dc.length = array_shape.prod ∧
      dc.take recorded.length = recorded ∧
      (isFloatFill dtype = true →
        dc.drop recorded.length = List.replicate (array_shape.prod - recorded.length) .nan) ∧
      (isIntDtype dtype = true →
        dc.drop recorded.length = List.replicate (array_shape.prod - recorded.length) (.num 0)) := by
  refine ⟨recorded ++ List.replicate (array_shape.prod - recorded.length) (serFill dtype),
    ?_, ?_, ?_, ?_, ?_⟩
  · unfold serPad
    rw [if_neg (by omega), if_pos (by omega)]
  · simp
    omega
  · simp [List.take_append_of_le_length]
  · intro hf
    simp [List.drop_append_of_le_length, serFill, hf]
  · intro hi
    have hnf : isFloatFill dtype = false := by
      cases dtype <;> simp_all [isFloatFill, isIntDtype]
    simp [List.drop_append_of_le_length, serFill, hnf]

/-- Witness for C4: a declared 2×3 shape with only four recorded values,
once with a float dtype (NaN tail) and once with an integer dtype
(zero tail). -/
theorem ser_padding_witness :
    (∃ dc, serPad .f4 [2, 3] [.num 1, .num 2, .num 3, .num 4] = some dc ∧
      dc.length = ([2, 3] : List Nat).prod ∧
      dc.take 4 = [.num 1, .num 2, .num 3, .num 4] ∧
      (isFloatFill .f4 = true →
        dc.drop 4 = List.replicate (([2, 3] : List Nat).prod - 4) .nan) ∧
      (isIntDtype .f4 = true →
        dc.drop 4 = List.replicate (([2, 3] : List Nat).prod - 4) (.num 0))) ∧
    serPad .f4 [2, 3] [.num 1, .num 2, .num 3, .num 4] =
      some [.num 1, .num 2, .num 3, .num 4, .nan, .nan] ∧
    serPad .i2 [2, 3] [.num 1, .num 2, .num 3, .num 4] =
      some [.num 1, .num 2, .num 3, .num 4, .num 0, .num 0] :=
  ⟨ser_padding .f4 [2, 3] [.num 1, .num 2, .num 3, .num 4] (by decide),
   by decide, by decide⟩

/-- C5: a call to `imsave` with no explicit `bigtiff` argument selects
BigTIFF exactly when the array's byte size exceeds `2000 * 2^20`;
BigTIFF writes version 43 with 8-byte offsets and classic TIFF writes
version 42 with 4-byte offsets. -/
theorem imsave_bigtiff_selection (size itemsize : Nat) :
    (size * itemsize > bigtiffThreshold →
      imsave_bigtiff none size itemsize = true ∧
      tiffwriter_version (imsave_bigtiff none size itemsize) = 43 ∧
      tiffwriter_offset_size (imsave_bigtiff none size itemsize) = 8) ∧
    (size * itemsize ≤ bigtiffThreshold →
      imsave_bigtiff none size itemsize = false ∧
      tiffwriter_version (imsave_bigtiff none size itemsize) = 42 ∧
      tiffwriter_offset_size (imsave_bigtiff none size itemsize) = 4) := by
  constructor
  · intro h
    simp [imsave_bigtiff, h, tiffwriter_version, tiffwriter_offset_size]
  · intro h
    simp [imsave_bigtiff, tiffwriter_version, tiffwriter_offset_size]
    omega

/-- Witness for C5: one array just above the threshold (BigTIFF) and a
small one below it (classic TIFF). -/
theorem imsave_bigtiff_selection_witness :
    imsave_bigtiff none (2000 * 2 ^ 20 + 1) 1 = true ∧
    tiffwriter_version (imsave_bigtiff none (2000 * 2 ^ 20 + 1) 1) = 43 ∧
    imsave_bigtiff none 1977570 8 = false ∧
    tiffwriter_version (imsave_bigtiff none 1977570 8) = 42 := by
  have h1 := (imsave_bigtiff_selection (2000 * 2 ^ 20 + 1) 1).1 (by norm_num [bigtiffThreshold])
  have h2 := (imsave_bigtiff_selection 1977570 8).2 (by norm_num [bigtiffThreshold])
  exact ⟨h1.1, h1.2.1, h2.1, h2.2.1⟩

/-- C10: when the root has no `file_format_version` attribute the reader
does not fail immediately: with an `Experiments` group the file is
treated as format version 1.0 (which is below both migration gates 1.1
and 1.2, so every migration pass applies), and only with neither the
attribute nor the group does `get_hspy_format_version` raise the
`IOError` saying the file is not a valid HyperSpy hdf5 file. -/
theorem hspy_version_fallback (root : H5Root)
    (hnone : root.file_format_version = none) :
    (root.hasExperiments = true →
      file_reader_version root = .ok (1, 0) ∧
      versionLt (1, 0) (1, 1) = true ∧ versionLt (1, 0) (1, 2) = true) ∧
    (root.hasExperiments = false →
      file_reader_version root = .error not_valid_format) := by
  constructor
  · intro h
    refine ⟨?_, by decide, by decide⟩
    simp [file_reader_version, get_hspy_format_version, hnone, h]
  · intro h
    simp [file_reader_version, get_hspy_format_version, hnone, h]

/-- Witness for C10 at the two concrete roots. -/
theorem hspy_version_fallback_witness :
    file_reader_version { file_format_version := none, hasExperiments := true } = .ok (1, 0) ∧
    file_reader_version { file_format_version := none, hasExperiments := false } =
      .error not_valid_format := by
  constructor
  · exact ((hspy_version_fallback _ rfl).1 rfl).1
  · exact (hspy_version_fallback _ rfl).2 rfl

/-- C6: for every parsed TIFF page, whichever vendor branch the
shape/axes derivation takes (STK with or without the `planes == 1`
trimming, palette applicable or not, RGB/multi-sample, plain
grayscale/volume), the derived public shape tuple and the axes label
string have equal length, so the closing
`assert len(self.shape) == len(self.axes)` never fails. -/
theorem tiff_shape_axes_invariant (p : TiffPageInfo) :
    (process_shape_axes p).2.1.length = (process_shape_axes p).2.2.length := by
  simp only [process_shape_axes]
  split_ifs <;> rfl

/-- C8: unknown tag codes are kept under the decimal string of the code,
and a single same-named duplicate is stored under `name_1`; but because
the disambiguation loop never increments its counter, a directory whose
mapping already holds `name` and `name_1` sends the third same-named tag
into an endless retry of `name_1`: no amount of fuel makes the insertion
terminate, contradicting the claimed `name_2`, `name_3`, ... pattern. -/
theorem tiff_tag_naming_bug :
    (∀ (tiffTags customTags : Nat → Option String) (code : Nat),
      tiffTags code = none → customTags code = none →
      tiff_tag_name tiffTags customTags code = toString code) ∧
    (∀ (tags : List String) (name : String) (fuel : Nat), name ∉ tags →
      insert_tag_name tags name fuel = some (tags ++ [name])) ∧
    (∀ (tags : List String) (base : String) (fuel : Nat), base ∈ tags →
      (base ++ "_" ++ toString 1) ∉ tags →
      insert_tag_name tags base (fuel + 1) = some (tags ++ [base ++ "_" ++ toString 1])) ∧
    (∀ (tags : List String) (base : String) (fuel : Nat), base ∈ tags →
      (base ++ "_" ++ toString 1) ∈ tags →
      insert_tag_name tags base fuel = none) := by
  refine ⟨?_, ?_, ?_, ?_⟩
  · intro tiffTags customTags code h1 h2
    simp [tiff_tag_name, h1, h2]
  · intro tags name fuel h
    simp [insert_tag_name, h]
  · intro tags base fuel hmem hnot
    simp [insert_tag_name, hmem, dup_loop, hnot]
  · intro tags base fuel hmem hmem1
    have hloop : ∀ k, dup_loop tags base 1 k = none := by
      intro k
      induction k with
      | zero => rfl
      | succ n ih => simp [dup_loop, hmem1, ih]
    simp [insert_tag_name, hmem, hloop]

/-- Witness for C8: a concrete unknown code keeps its decimal name, a
first duplicate becomes `image_description_1`, and inserting a third
tag named `t` into a mapping already holding `t` and `t_1` never
terminates (here evaluated at fuel 7). -/
theorem tiff_tag_naming_bug_witness :
    tiff_tag_name (fun _ => none) (fun _ => none) 65000 = "65000" ∧
    insert_tag_name ["image_description", "compression"] "image_description" 3 =
      some ["image_description", "compression", "image_description_1"] ∧
    insert_tag_name ["t", "t_1"] "t" 7 = none := by
  refine ⟨?_, ?_, ?_⟩
  · exact tiff_tag_naming_bug.1 (fun _ => none) (fun _ => none) 65000 rfl rfl
  · have h := tiff_tag_naming_bug.2.2.1 ["image_description", "compression"]
      "image_description" 2 (by decide) (by decide)
    simpa using h
  · exact tiff_tag_naming_bug.2.2.2 ["t", "t_1"] "t" 7 (by decide) (by decide)

lemma getKey_setKey_self (l : List (String × PValue)) (k : String) (v : PValue) :
    getKey (setKey l k v) k = some v := by
  induction l with
  | nil => simp [setKey, getKey]
  | cons p rest ih =>
    obtain ⟨a, w⟩ := p
    by_cases ha : a = k
    · simp only [setKey, if_pos ha, getKey, if_pos ha]
    · simp only [setKey, if_neg ha, getKey, if_neg ha, ih]

lemma getKey_setKey_other (l : List (String × PValue)) (k k' : String) (v : PValue)
    (h : k' ≠ k) : getKey (setKey l k v) k' = getKey l k' := by
  induction l with
  | nil =>
    simp only [setKey, getKey, if_neg (show ¬ k = k' from fun hh => h hh.symm)]
  | cons p rest ih =>
    obtain ⟨a, w⟩ := p
    by_cases ha : a = k
    · have hak' : ¬ a = k' := fun hh => h (hh.symm.trans ha)
      simp only [setKey, if_pos ha, getKey, if_neg hak']
    · by_cases ha' : a = k'
      · simp only [setKey, if_neg ha, getKey, if_pos ha']
      · simp only [setKey, if_neg ha, getKey, if_neg ha', ih]

lemma getKey_delKey_self (l : List (String × PValue)) (k : String) :
    getKey (delKey l k) k = none := by
  induction l with
  | nil => simp [delKey, getKey]
  | cons p rest ih =>
    obtain ⟨a, w⟩ := p
    by_cases ha : a = k
    · simp only [delKey, if_pos ha, ih]
    · simp only [delKey, if_neg ha, getKey, if_neg ha, ih]

lemma getKey_delKey_other (l : List (String × PValue)) (k k' : String)
    (h : k' ≠ k) : getKey (delKey l k) k' = getKey l k' := by
  induction l with
  | nil => simp [delKey, getKey]
  | cons p rest ih =>
    obtain ⟨a, w⟩ := p
    by_cases ha : a = k
    · have hak' : ¬ a = k' := fun hh => h (hh.symm.trans ha)
      simp only [delKey, if_pos ha, getKey, if_neg hak', ih]
    · by_cases ha' : a = k'
      · simp only [delKey, if_neg ha, getKey, if_pos ha']
      · simp only [delKey, if_neg ha, getKey, if_neg ha', ih]

lemma versionLt_11_to_12 (v : Nat × Nat) (h : versionLt v (1, 1) = true) :
    versionLt v (1, 2) = true := by
  simp [versionLt] at h ⊢
  omega

/-- C9: loading an HDF5 file whose format version is below 1.1 and whose
metadata carries the deprecated flat `signal`/`name` keys moves the
value of `signal` to `metadata.Signal.signal_type` and the value of
`name` to `metadata.General.title`, and removes both flat keys.  The
hypotheses describe the old-format layout: the nested `Signal`/`General`
groups and the newer flat keys are absent (a pre-1.1 writer produced
neither). -/
theorem hdf5_deprecated_key_migration
    (version : Nat × Nat) (md : List (String × PValue)) (sv nv : PValue)
    (hver : versionLt version (1, 1) = true)
    (hsig : getKey md "signal" = some sv)
    (hname : getKey md "name" = some nv)
    (hSig : getKey md "Signal" = none)
    (hGen : getKey md "General" = none)
    (htitle : getKey md "title" = none)
    (hdate : getKey md "date" = none)
    (htime : getKey md "time" = none)
    (hof : getKey md "original_filename" = none)
    (hrb : getKey md "record_by" = none)
    (hso : getKey md "signal_origin" = none)
    (hst : getKey md "signal_type" = none) :
    ∃ md', hdfgroup2signaldict_meta version md = .ok md' ∧
      getKey md' "Signal" = some (.pdict [("signal_type", sv)]) ∧
      getKey md' "signal" = none ∧
      getKey md' "General" = some (.pdict [("title", nv)]) ∧
      getKey md' "name" = none := by
  have h12 : versionLt version (1, 2) = true := versionLt_11_to_12 version hver
  -- the two pre-1.1 moves
  set A := setKey (setKey md "Signal" (PValue.pdict [])) "Signal"
    (PValue.pdict [("signal_type", sv)]) with hA
  set m2 := delKey A "signal" with hm2
  have hm2Sig : getKey m2 "Signal" = some (.pdict [("signal_type", sv)]) := by
    rw [hm2, getKey_delKey_other _ _ _ (by decide), hA, getKey_setKey_self]
  have hm2sig : getKey m2 "signal" = none := by
    rw [hm2, getKey_delKey_self]
  have hm2other : ∀ k', k' ≠ "signal" → k' ≠ "Signal" → getKey m2 k' = getKey md k' := by
    intro k' h1 h2
    rw [hm2, getKey_delKey_other _ _ _ h1, hA,
      getKey_setKey_other _ _ _ _ h2, getKey_setKey_other _ _ _ _ h2]
  set B := setKey (setKey m2 "General" (PValue.pdict [])) "General"
    (PValue.pdict [("title", nv)]) with hB
  set m4 := delKey B "name" with hm4
  have hm4Gen : getKey m4 "General" = some (.pdict [("title", nv)]) := by
    rw [hm4, getKey_delKey_other _ _ _ (by decide), hB, getKey_setKey_self]
  have hm4name : getKey m4 "name" = none := by
    rw [hm4, getKey_delKey_self]
  have hm4other : ∀ k', k' ≠ "name" → k' ≠ "General" → getKey m4 k' = getKey m2 k' := by
    intro k' h1 h2
    rw [hm4, getKey_delKey_other _ _ _ h1, hB,
      getKey_setKey_other _ _ _ _ h2, getKey_setKey_other _ _ _ _ h2]
  have hm4Sig : getKey m4 "Signal" = some (.pdict [("signal_type", sv)]) := by
    rw [hm4other _ (by decide) (by decide), hm2Sig]
  have hm4sig : getKey m4 "signal" = none := by
    rw [hm4other _ (by decide) (by decide), hm2sig]
  -- the version-< 1.2 loops find none of their keys
  have habsent : ∀ k', k' ∈ (["title", "date", "time", "original_filename",
      "record_by", "signal_origin", "signal_type"] : List String) →
      getKey m4 k' = none := by
    intro k' hk
    fin_cases hk <;>
      rw [hm4other _ (by decide) (by decide), hm2other _ (by decide) (by decide)] <;>
      assumption
  have hstep0 : fix_unnamed_title md = md := by
    simp [fix_unnamed_title, hGen]
  have hmove1 : move_flat_key md "signal" "Signal" "signal_type" =
      .ok (delKey A "signal") := by
    simp [move_flat_key, hsig, hSig, hA, getKey_setKey_self, setKey]
  have hm2name : getKey m2 "name" = some nv := by
    rw [hm2other _ (by decide) (by decide)]; exact hname
  have hm2Gen : getKey m2 "General" = none := by
    rw [hm2other _ (by decide) (by decide)]; exact hGen
  have hmove2 : move_flat_key m2 "name" "General" "title" = .ok m4 := by
    simp [move_flat_key, hm2name, hm2Gen, hB, hm4, getKey_setKey_self, setKey]
  have hloop1 : move_flat_keys "General" m4
      ["title", "date", "time", "original_filename"] = .ok m4 := by
    simp [move_flat_keys, move_flat_key,
      habsent "title" (by decide), habsent "date" (by decide),
      habsent "time" (by decide), habsent "original_filename" (by decide)]
  have hloop2 : move_flat_keys "Signal" m4
      ["record_by", "signal_origin", "signal_type"] = .ok m4 := by
    simp [move_flat_keys, move_flat_key,
      habsent "record_by" (by decide), habsent "signal_origin" (by decide),
      habsent "signal_type" (by decide)]
  refine ⟨m4, ?_, hm4Sig, hm4sig, hm4Gen, hm4name⟩
  simp only [hdfgroup2signaldict_meta, hstep0, hver, if_true, hmove1, hmove2,
    h12, hloop1, hloop2]

/-- Witness for C9 at a concrete pre-1.1 metadata dictionary. -/
theorem hdf5_deprecated_key_migration_witness :
    ∃ md', hdfgroup2signaldict_meta (1, 0)
        [("signal", .pstr "EELS"), ("name", .pstr "My title")] = .ok md' ∧
      getKey md' "Signal" = some (.pdict [("signal_type", .pstr "EELS")]) ∧
      getKey md' "signal" = none ∧
      getKey md' "General" = some (.pdict [("title", .pstr "My title")]) ∧
      getKey md' "name" = none :=
  hdf5_deprecated_key_migration (1, 0)
    [("signal", .pstr "EELS"), ("name", .pstr "My title")]
    (.pstr "EELS") (.pstr "My title")
    (by decide) rfl rfl rfl rfl rfl rfl rfl rfl rfl rfl rfl

/-! Lexicographic order facts for `strLe`. -/

lemma charsLe_cons_iff (x y : Char) (xs ys : List Char) :
    charsLe (x :: xs) (y :: ys) = true ↔
      x.toNat < y.toNat ∨ (x.toNat = y.toNat ∧ charsLe xs ys = true) := by
  simp only [charsLe]
  split_ifs with h1 h2
  · simp
    omega
  · simp
    omega
  · constructor
    · intro h
      right
      exact ⟨by omega, h⟩
    · rintro (h | ⟨_, h⟩)
      · omega
      · exact h

lemma char_toNat_inj {a b : Char} (h : a.toNat = b.toNat) : a = b := by
  apply Char.ext
  apply UInt32.ext
  simpa [Char.toNat, UInt32.toNat] using h

lemma charsLe_total : ∀ a b, charsLe a b = true ∨ charsLe b a = true := by
  intro a
  induction a with
  | nil => intro b; left; rfl
  | cons x xs ih =>
    intro b
    cases b with
    | nil => right; rfl
    | cons y ys =>
      rcases Nat.lt_trichotomy x.toNat y.toNat with h | h | h
      · left; rw [charsLe_cons_iff]; exact Or.inl h
      · rcases ih ys with h' | h'
        · left; rw [charsLe_cons_iff]; exact Or.inr ⟨h, h'⟩
        · right; rw [charsLe_cons_iff]; exact Or.inr ⟨h.symm, h'⟩
      · right; rw [charsLe_cons_iff]; exact Or.inl h

lemma charsLe_antisymm : ∀ a b, charsLe a b = true → charsLe b a = true → a = b := by
  intro a
  induction a with
  | nil =>
    intro b _ hba
    cases b with
    | nil => rfl
    | cons y ys => simp [charsLe] at hba
  | cons x xs ih =>
    intro b hab hba
    cases b with
    | nil => simp [charsLe] at hab
    | cons y ys =>
      rw [charsLe_cons_iff] at hab hba
      rcases hab with h | ⟨he, hr⟩
      · rcases hba with h' | ⟨he', _⟩ <;> omega
      · rcases hba with h' | ⟨_, hr'⟩
        · omega
        · rw [char_toNat_inj he, ih ys hr hr']

lemma charsLe_trans : ∀ a b c, charsLe a b = true → charsLe b c = true →
    charsLe a c = true := by
  intro a
  induction a with
  | nil => intro b c _ _; rfl
  | cons x xs ih =>
    intro b c hab hbc
    cases b with
    | nil => simp [charsLe] at hab
    | cons y ys =>
      cases c with
      | nil => simp [charsLe] at hbc
      | cons z zs =>
        rw [charsLe_cons_iff] at hab hbc ⊢
        rcases hab with h1 | ⟨he1, hr1⟩
        · rcases hbc with h2 | ⟨he2, _⟩
          · exact Or.inl (by omega)
          · exact Or.inl (by omega)
        · rcases hbc with h2 | ⟨he2, hr2⟩
          · exact Or.inl (by omega)
          · exact Or.inr ⟨by omega, ih ys zs hr1 hr2⟩

lemma strLe_total (a b : String) : strLe a b = true ∨ strLe b a = true :=
  charsLe_total a.data b.data

lemma strLe_antisymm {a b : String} (h1 : strLe a b = true) (h2 : strLe b a = true) :
    a = b := by
  have h := charsLe_antisymm a.data b.data h1 h2
  cases a
  cases b
  exact congrArg String.mk h

lemma strLe_trans {a b c : String} (h1 : strLe a b = true) (h2 : strLe b c = true) :
    strLe a c = true :=
  charsLe_trans a.data b.data c.data h1 h2

/-! Sorting facts for `sortKey`. -/

lemma insKey_perm (p : String × PValue) (l : List (String × PValue)) :
    (insKey p l).Perm (p :: l) := by
  induction l with
  | nil => rfl
  | cons q qs ih =>
    unfold insKey
    split_ifs
    · rfl
    · exact (ih.cons q).trans (List.Perm.swap p q qs)

lemma sortKey_perm (l : List (String × PValue)) : (sortKey l).Perm l := by
  induction l with
  | nil => rfl
  | cons p ps ih =>
    exact (insKey_perm p (sortKey ps)).trans (ih.cons p)

lemma insKey_pairwise (p : String × PValue) (l : List (String × PValue))
    (h : List.Pairwise (fun a b : String × PValue => strLe a.1 b.1 = true) l) :
    List.Pairwise (fun a b : String × PValue => strLe a.1 b.1 = true) (insKey p l) := by
  induction l with
  | nil => simp [insKey]
  | cons q qs ih =>
    have hq : ∀ r ∈ qs, strLe q.1 r.1 = true := fun r hr =>
      List.rel_of_pairwise_cons h hr
    have hqs : List.Pairwise (fun a b : String × PValue => strLe a.1 b.1 = true) qs :=
      h.of_cons
    unfold insKey
    split_ifs with hle
    · refine List.Pairwise.cons ?_ h
      intro r hr
      cases hr with
      | head => exact hle
      | tail _ hr => exact strLe_trans hle (hq r hr)
    · have hqp : strLe q.1 p.1 = true := by
        rcases strLe_total p.1 q.1 with h' | h'
        · exact absurd h' hle
        · exact h'
      refine List.Pairwise.cons ?_ (ih hqs)
      intro r hr
      rcases List.mem_cons.mp ((insKey_perm p qs).mem_iff.mp hr) with h' | h'
      · rw [h']; exact hqp
      · exact hq r h'

lemma sortKey_pairwise (l : List (String × PValue)) :
    List.Pairwise (fun a b : String × PValue => strLe a.1 b.1 = true) (sortKey l) := by
  induction l with
  | nil => simp [sortKey]
  | cons p ps ih => exact insKey_pairwise p (sortKey ps) ih

lemma strsNodup_iff (ss : List String) : strsNodup ss = true ↔ ss.Nodup := by
  induction ss with
  | nil => simp [strsNodup]
  | cons s rest ih =>
    simp [strsNodup, ih, List.elem_iff]

lemma sortKey_eq_of_perm {l₁ l₂ : List (String × PValue)} (h : l₁.Perm l₂)
    (hn : (l₁.map Prod.fst).Nodup) : sortKey l₁ = sortKey l₂ := by
  have hperm : (sortKey l₁).Perm (sortKey l₂) :=
    (sortKey_perm l₁).trans (h.trans (sortKey_perm l₂).symm)
  have hn1 : ((sortKey l₁).map Prod.fst).Nodup :=
    (((sortKey_perm l₁).map Prod.fst).nodup_iff).mpr hn
  have hn2 : ((sortKey l₂).map Prod.fst).Nodup :=
    ((hperm.map Prod.fst).nodup_iff).mp hn1
  have hne1 : List.Pairwise (fun a b : String × PValue => a.1 ≠ b.1) (sortKey l₁) :=
    List.pairwise_map.mp hn1
  have hne2 : List.Pairwise (fun a b : String × PValue => a.1 ≠ b.1) (sortKey l₂) :=
    List.pairwise_map.mp hn2
  haveI : IsAntisymm (String × PValue)
      (fun a b => strLe a.1 b.1 = true ∧ a.1 ≠ b.1) := by
    constructor
    intro a b ⟨h1, hne⟩ ⟨h2, _⟩
    exact absurd (strLe_antisymm h1 h2) hne
  exact List.eq_of_perm_of_sorted hperm
    ((sortKey_pairwise l₁).and hne1) ((sortKey_pairwise l₂).and hne2)

lemma sortKey_id_of_chain (l : List (String × PValue))
    (h : strsChainLe (l.map Prod.fst) = true) : sortKey l = l := by
  induction l with
  | nil => rfl
  | cons p ps ih =>
    have htail : strsChainLe (ps.map Prod.fst) = true := by
      cases ps with
      | nil => rfl
      | cons q qs =>
        simp only [List.map, strsChainLe, Bool.and_eq_true] at h
        exact h.2
    rw [sortKey, ih htail]
    cases ps with
    | nil => rfl
    | cons q qs =>
      simp only [List.map, strsChainLe, Bool.and_eq_true] at h
      simp [insKey, h.1]

/-! `pnorm` distribution facts. -/

lemma pnormEntries_eq_map (l : List (String × PValue)) :
    pnormEntries l = l.map fun p => (p.1, pnorm p.2) := by
  induction l with
  | nil => rfl
  | cons p ps ih => cases p; simp [pnormEntries, ih]

lemma pnormList_eq_map (vs : List PValue) : pnormList vs = vs.map pnorm := by
  induction vs with
  | nil => rfl
  | cons v vs ih => simp [pnormList, ih]

lemma map_fst_pnormEntries (l : List (String × PValue)) :
    (pnormEntries l).map Prod.fst = l.map Prod.fst := by
  simp [pnormEntries_eq_map]

lemma map_snd_pnormEntries (l : List (String × PValue)) :
    (pnormEntries l).map Prod.snd = (l.map Prod.snd).map pnorm := by
  simp [pnormEntries_eq_map]

lemma insKey_pnormEntries (p : String × PValue) (l : List (String × PValue)) :
    insKey (p.1, pnorm p.2) (pnormEntries l) = pnormEntries (insKey p l) := by
  induction l with
  | nil => cases p; simp [insKey, pnormEntries]
  | cons q qs ih =>
    cases p
    cases q
    unfold insKey
    simp only [pnormEntries]
    split_ifs <;> simp_all [pnormEntries]

lemma sortKey_pnormEntries (l : List (String × PValue)) :
    sortKey (pnormEntries l) = pnormEntries (sortKey l) := by
  induction l with
  | nil => rfl
  | cons p ps ih =>
    obtain ⟨a, b⟩ := p
    simp only [pnormEntries, sortKey, ih]
    exact insKey_pnormEntries (a, b) (sortKey ps)

lemma pnormEntries_append (a b : List (String × PValue)) :
    pnormEntries (a ++ b) = pnormEntries a ++ pnormEntries b := by
  simp [pnormEntries_eq_map]

/-! Key-goodness consequences and prefix facts. -/

lemma charsPre_trans : ∀ p q s : List Char, charsPre p q = true → charsPre q s = true →
    charsPre p s = true := by
  intro p
  induction p with
  | nil => intro q s _ _; rfl
  | cons x xs ih =>
    intro q s hpq hqs
    cases q with
    | nil => simp [charsPre] at hpq
    | cons y ys =>
      cases s with
      | nil => simp [charsPre] at hqs
      | cons z zs =>
        simp only [charsPre, Bool.and_eq_true, beq_iff_eq] at hpq hqs ⊢
        exact ⟨hpq.1.trans hqs.1, ih ys zs hpq.2 hqs.2⟩

lemma goodKey_spec {k : String} (h : goodKey k = true) :
    strHasPre "_sig_" k = false ∧ strHasPre "_list_" k = false ∧
    strHasPre "_tuple_" k = false ∧ strHasPre "_bs_" k = false ∧
    strHasPre "_datetime_" k = false ∧ strHasPre "_hspy_AxesManager_" k = false ∧
    containsPat "_datetime_".data k.data = false ∧ digitUndKey k.data = false := by
  simp only [goodKey, Bool.and_eq_true, Bool.not_eq_true'] at h
  tauto

lemma not_le_of_listPre {k : String} (h : strHasPre "_list_" k = false) :
    strHasPre "_list_empty_" k = false := by
  cases hle : strHasPre "_list_empty_" k
  · rfl
  · have h2 : strHasPre "_list_" k = true :=
      charsPre_trans "_list_".data "_list_empty_".data k.data rfl hle
    rw [h] at h2
    exact Bool.noConfusion h2

lemma not_te_of_tuplePre {k : String} (h : strHasPre "_tuple_" k = false) :
    strHasPre "_tuple_empty_" k = false := by
  cases hte : strHasPre "_tuple_empty_" k
  · rfl
  · have h2 : strHasPre "_tuple_" k = true :=
      charsPre_trans "_tuple_".data "_tuple_empty_".data k.data rfl hte
    rw [h] at h2
    exact Bool.noConfusion h2

lemma replaceAux_no_occurrence (pat : List Char) :
    ∀ cs, containsPat pat cs = false → replaceAux pat cs 0 = cs := by
  intro cs
  induction cs with
  | nil => intro _; rfl
  | cons c cs ih =>
    intro h
    simp only [containsPat, Bool.or_eq_false_iff] at h
    simp [replaceAux, h.1, ih h.2]

/-! `setKey`/`getKey` bookkeeping. -/

lemma getKey_eq_none_iff (l : List (String × PValue)) (k : String) :
    getKey l k = none ↔ k ∉ l.map Prod.fst := by
  induction l with
  | nil => simp [getKey]
  | cons p rest ih =>
    obtain ⟨a, w⟩ := p
    by_cases ha : a = k
    · simp [getKey, ha]
    · rw [getKey, if_neg ha, ih]
      simp only [List.map_cons, List.mem_cons, not_or]
      constructor
      · intro hh
        exact ⟨fun he => ha he.symm, hh⟩
      · exact And.right

lemma setKey_fresh {d : List (String × PValue)} {k : String} (v : PValue)
    (h : getKey d k = none) : setKey d k v = d ++ [(k, v)] := by
  induction d with
  | nil => rfl
  | cons p rest ih =>
    obtain ⟨a, w⟩ := p
    by_cases ha : a = k
    · simp [getKey, ha] at h
    · simp only [getKey, if_neg ha] at h
      simp [setKey, ha, ih h]

lemma getKey_append_none {d : List (String × PValue)} {k k' : String} {v : PValue}
    (h : getKey d k' = none) (hne : k' ≠ k) : getKey (d ++ [(k, v)]) k' = none := by
  rw [getKey_eq_none_iff] at h ⊢
  simp only [List.map_append, List.mem_append]
  rintro (hmem | hmem)
  · exact h hmem
  · simp at hmem
    exact hne hmem

/-! Indexed-group association lists. -/

lemma map_fst_idxAssoc : ∀ (i : Nat) (vs : List PValue),
    (idxAssoc i vs).map Prod.fst = (List.range' i vs.length).map toString := by
  intro i vs
  induction vs generalizing i with
  | nil => rfl
  | cons v vs ih => simp [idxAssoc, List.range'_succ, ih]

lemma map_snd_idxAssoc : ∀ (i : Nat) (vs : List PValue),
    (idxAssoc i vs).map Prod.snd = vs := by
  intro i vs
  induction vs generalizing i with
  | nil => rfl
  | cons v vs ih => simp [idxAssoc, ih]

lemma pvSizeE_idxAssoc : ∀ (i : Nat) (vs : List PValue),
    pvSizeE (idxAssoc i vs) = pvSizeL vs := by
  intro i vs
  induction vs generalizing i with
  | nil => rfl
  | cons v vs ih => simp [idxAssoc, pvSizeE, pvSizeL, ih]

lemma exportIndexed_eq_dict : ∀ (i : Nat) (vs : List PValue),
    exportIndexed i vs = dict2hdfgroup (idxAssoc i vs) := by
  intro i vs
  induction vs generalizing i with
  | nil => rfl
  | cons v vs ih => simp [exportIndexed, idxAssoc, dict2hdfgroup, ih]

/-! Per-entry round trip: attribute-valued entries come back untouched
(the sentinel encodings `'_None_'`, `_list_empty_`/`_tuple_empty_` and
`_bs_` are decoded to exactly the original value). -/

lemma attr_step {k : String} {v : PValue} (hg : goodKey k = true)
    (hs : Supported v = true) (ha : isAttrVal v = true) :
    ∃ name hv, exportEntry k v = .attr name hv ∧
      ∀ d, importAttrOne d name hv = setKey d k v := by
  obtain ⟨g1, g2, g3, g4, g5, g6, g7, g8⟩ := goodKey_spec hg
  have gLE := not_le_of_listPre g2
  have gTE := not_te_of_tuplePre g3
  cases v with
  | pnone =>
    refine ⟨k, .hstr "_None_", rfl, fun d => ?_⟩
    simp [importAttrOne, g1, gLE, gTE, g4, g5]
  | pstr s =>
    have hsne : ¬(s = "_None_") := by simpa [Supported] using hs
    refine ⟨k, .hstr s, rfl, fun d => ?_⟩
    simp [importAttrOne, g1, gLE, gTE, g4, g5, hsne]
  | pint n =>
    refine ⟨k, .hint n, rfl, fun d => ?_⟩
    simp [importAttrOne, g1, gLE, gTE, g4, g5]
  | pdatetime r =>
    have hrne : ¬(r = "_None_") := by simpa [Supported] using hs
    refine ⟨"_datetime_" ++ k, .hstr r, rfl, fun d => ?_⟩
    have hrepl : strReplaceEmpty "_datetime_" ("_datetime_" ++ k) = k := by
      show String.mk (replaceAux "_datetime_".data k.data 0) = k
      rw [replaceAux_no_occurrence _ _ g7]
    simp only [importAttrOne, hrepl, hrne, if_false]
    rfl
  | pbytes bs =>
    have hcont : bs.contains 0 = true := by simpa [Supported] using hs
    refine ⟨"_bs_" ++ k, .hvoid bs, ?_, fun d => ?_⟩
    · simp only [exportEntry]
      rw [if_pos hcont]
    · rfl
  | plist vs =>
    have hnil : vs = [] := by
      simpa [isAttrVal, List.length_eq_zero] using ha
    subst hnil
    exact ⟨"_list_empty_" ++ k, .hstr "_None_", rfl, fun d => rfl⟩
  | ptuple vs =>
    have hnil : vs = [] := by
      simpa [isAttrVal, List.length_eq_zero] using ha
    subst hnil
    exact ⟨"_tuple_empty_" ++ k, .hstr "_None_", rfl, fun d => rfl⟩
  | pdict es => simp [isAttrVal] at ha
  | arr shape data => simp [isAttrVal] at ha

/-- Non-attribute entries export to a dataset or a subgroup. -/
lemma obj_export_shape {k : String} {v : PValue} (ha : isAttrVal v = false) :
    (∃ n ds, exportEntry k v = .dset n ds) ∨ (∃ n g, exportEntry k v = .sub n g) := by
  cases v with
  | pdict es => exact Or.inr ⟨k, dict2hdfgroup es, rfl⟩
  | arr shape data => exact Or.inl ⟨k, .ints shape data, rfl⟩
  | plist vs =>
    have hlen : vs.length ≠ 0 := by simpa [isAttrVal] using ha
    simp only [exportEntry]
    rw [if_pos hlen]
    cases harrk : arrKind vs with
    | ints => exact Or.inl ⟨_, _, rfl⟩
    | strs => exact Or.inl ⟨_, _, rfl⟩
    | bytesK => exact Or.inl ⟨_, _, rfl⟩
    | obj => exact Or.inr ⟨_, _, rfl⟩
  | ptuple vs =>
    have hlen : vs.length ≠ 0 := by simpa [isAttrVal] using ha
    simp only [exportEntry]
    rw [if_pos hlen]
    cases harrk : arrKind vs with
    | ints => exact Or.inl ⟨_, _, rfl⟩
    | strs => exact Or.inl ⟨_, _, rfl⟩
    | bytesK => exact Or.inl ⟨_, _, rfl⟩
    | obj => exact Or.inr ⟨_, _, rfl⟩
  | pnone => simp [isAttrVal] at ha
  | pdatetime r => simp [isAttrVal] at ha
  | pbytes bs => simp [isAttrVal] at ha
  | pstr s => simp [isAttrVal] at ha
  | pint n => simp [isAttrVal] at ha

/-! Well-formedness bookkeeping. -/

lemma WFDict_cons {k : String} {v : PValue} {es : List (String × PValue)}
    (h : WFDict ((k, v) :: es) = true) :
    goodKey k = true ∧ Supported v = true ∧ WFDict es = true ∧ k ∉ es.map Prod.fst := by
  have h' : ((!(es.map Prod.fst).contains k && strsNodup (es.map Prod.fst)) &&
      ((goodKey k && Supported v) && SupportedEntries es)) = true := h
  rw [Bool.and_eq_true, Bool.and_eq_true, Bool.and_eq_true, Bool.and_eq_true,
    Bool.not_eq_true'] at h'
  obtain ⟨⟨hc, hn⟩, ⟨hg, hs⟩, he⟩ := h'
  refine ⟨hg, hs, ?_, ?_⟩
  · rw [WFDict, Bool.and_eq_true]
    exact ⟨hn, he⟩
  · intro hmem
    rw [show ((es.map Prod.fst).contains k) = (es.map Prod.fst).elem k from rfl,
      List.elem_eq_true_of_mem hmem] at hc
    exact Bool.noConfusion hc

lemma pvSize_pos (v : PValue) : 1 ≤ pvSize v := by
  cases v <;> simp [pvSize]

lemma intsOf_roundtrip : ∀ vs : List PValue, vs.all isIntV = true →
    (intsOf vs).map PValue.pint = vs := by
  intro vs
  induction vs with
  | nil => intro _; rfl
  | cons v rest ih =>
    intro h
    rw [List.all_cons, Bool.and_eq_true] at h
    obtain ⟨h1, h2⟩ := h
    cases v with
    | pint n =>
      show PValue.pint n :: (intsOf rest).map PValue.pint = PValue.pint n :: rest
      rw [ih h2]
    | pdict es => exact Bool.noConfusion h1
    | arr shape data => exact Bool.noConfusion h1
    | plist vs => exact Bool.noConfusion h1
    | ptuple vs => exact Bool.noConfusion h1
    | pnone => exact Bool.noConfusion h1
    | pdatetime r => exact Bool.noConfusion h1
    | pbytes bs => exact Bool.noConfusion h1
    | pstr ss => exact Bool.noConfusion h1

lemma strsOf_roundtrip : ∀ vs : List PValue, vs.all isStrV = true →
    (strsOf vs).map PValue.pstr = vs := by
  intro vs
  induction vs with
  | nil => intro _; rfl
  | cons v rest ih =>
    intro h
    rw [List.all_cons, Bool.and_eq_true] at h
    obtain ⟨h1, h2⟩ := h
    cases v with
    | pstr ss =>
      show PValue.pstr ss :: (strsOf rest).map PValue.pstr = PValue.pstr ss :: rest
      rw [ih h2]
    | pdict es => exact Bool.noConfusion h1
    | arr shape data => exact Bool.noConfusion h1
    | plist vs => exact Bool.noConfusion h1
    | ptuple vs => exact Bool.noConfusion h1
    | pnone => exact Bool.noConfusion h1
    | pdatetime r => exact Bool.noConfusion h1
    | pbytes bs => exact Bool.noConfusion h1
    | pint n => exact Bool.noConfusion h1

/-! Digit keys of indexed sub-groups. -/

lemma goodKey_digit {i : Nat} (h : i ≤ 9) : goodKey (toString i) = true := by
  interval_cases i <;> decide

lemma nodup_digit_keys {n : Nat} (h : n ≤ 10) :
    strsNodup ((List.range' 0 n).map toString) = true := by
  interval_cases n <;> decide

lemma chain_digit_keys {n : Nat} (h : n ≤ 10) :
    strsChainLe ((List.range' 0 n).map toString) = true := by
  interval_cases n <;> decide

lemma strip_list_name {n : Nat} (h1 : 1 ≤ n) (h2 : n ≤ 10) (k : String) :
    stripIndexedName 6 ("_list_" ++ toString n ++ "_" ++ k) = k := by
  interval_cases n <;> rfl

lemma strip_tuple_name {n : Nat} (h1 : 1 ≤ n) (h2 : n ≤ 10) (k : String) :
    stripIndexedName 7 ("_tuple_" ++ toString n ++ "_" ++ k) = k := by
  interval_cases n <;> rfl

lemma supportedEntries_idxAssoc : ∀ (vs : List PValue) (i : Nat),
    i + vs.length ≤ 10 → SupportedList vs = true →
    SupportedEntries (idxAssoc i vs) = true := by
  intro vs
  induction vs with
  | nil => intro i _ _; rfl
  | cons v rest ih =>
    intro i hle hsl
    simp only [SupportedList, Bool.and_eq_true] at hsl
    simp only [idxAssoc, SupportedEntries, Bool.and_eq_true]
    refine ⟨⟨goodKey_digit ?_, hsl.1⟩, ih (i + 1) ?_ hsl.2⟩
    · simp only [List.length_cons] at hle
      omega
    · simp only [List.length_cons] at hle
      omega

lemma wf_idxAssoc {vs : List PValue} (hlen : vs.length ≤ 10)
    (hsl : SupportedList vs = true) : WFDict (idxAssoc 0 vs) = true := by
  simp only [WFDict, Bool.and_eq_true]
  constructor
  · rw [map_fst_idxAssoc]
    exact nodup_digit_keys hlen
  · exact supportedEntries_idxAssoc vs 0 (by omega) hsl

/-! The attribute pass over an exported dictionary. -/

lemma importAttrs_pass : ∀ (es d : List (String × PValue)),
    WFDict es = true →
    (∀ p ∈ es, getKey d p.1 = none) →
    importAttrs (dict2hdfgroup es) d =
      d ++ es.filter (fun p => isAttrVal p.2) := by
  intro es
  induction es with
  | nil => intro d _ _; simp [dict2hdfgroup, importAttrs]
  | cons p rest ih =>
    intro d hwf hfresh
    obtain ⟨k, v⟩ := p
    obtain ⟨hg, hsv, hwfr, hknot⟩ := WFDict_cons hwf
    rw [dict2hdfgroup]
    cases hA : isAttrVal v
    · rcases obj_export_shape (k := k) hA with ⟨n, ds, he⟩ | ⟨n, g, he⟩ <;>
        · rw [he]
          show importAttrs (dict2hdfgroup rest) d = _
          rw [ih d hwfr (fun q hq => hfresh q (List.mem_cons_of_mem _ hq)),
            List.filter_cons]
          simp [hA]
    · obtain ⟨name, hv, he, himp⟩ := attr_step hg hsv hA
      rw [he]
      show importAttrs (dict2hdfgroup rest) (importAttrOne d name hv) = _
      rw [himp d, setKey_fresh v (hfresh (k, v) (List.mem_cons_self _ _))]
      rw [ih (d ++ [(k, v)]) hwfr ?_]
      · rw [List.filter_cons]
        simp [hA]
      · intro q hq
        refine getKey_append_none (hfresh q (List.mem_cons_of_mem _ hq)) ?_
        intro hqk
        exact hknot (hqk ▸ List.mem_map_of_mem Prod.fst hq)

/-- A non-attribute key is absent from the attribute-filtered dict. -/
lemma filter_attr_fresh : ∀ (es : List (String × PValue)),
    strsNodup (es.map Prod.fst) = true →
    ∀ p ∈ es, isAttrVal p.2 = false →
    getKey (es.filter fun q => isAttrVal q.2) p.1 = none := by
  intro es
  induction es with
  | nil => intro _ p hp; exact absurd hp (List.not_mem_nil p)
  | cons q rest ih =>
    intro hn p hp hna
    obtain ⟨a, w⟩ := q
    simp only [List.map_cons, strsNodup, Bool.and_eq_true, Bool.not_eq_true'] at hn
    obtain ⟨hc, hnrest⟩ := hn
    have hanotin : a ∉ rest.map Prod.fst := by
      intro hmem
      rw [show ((rest.map Prod.fst).contains a) = (rest.map Prod.fst).elem a from rfl,
        List.elem_eq_true_of_mem hmem] at hc
      exact Bool.noConfusion hc
    rcases List.mem_cons.mp hp with hpq | hprest
    · subst hpq
      simp only at hna
      rw [List.filter_cons]
      simp only [hna, Bool.false_eq_true, if_false]
      rw [getKey_eq_none_iff]
      intro hmem
      exact hanotin (List.map_subset Prod.fst (List.filter_sublist rest).subset hmem)
    · have hane : a ≠ p.1 := by
        intro hh
        exact hanotin (hh ▸ List.mem_map_of_mem Prod.fst hprest)
      rw [List.filter_cons]
      cases hAw : isAttrVal w
      · simp only [hAw, Bool.false_eq_true, if_false]
        exact ih hnrest p hprest hna
      · simp only [hAw, if_true]
        rw [getKey, if_neg hane]
        exact ih hnrest p hprest hna

/-- Order restoration for an indexed sub-group: sorting the imported
sub-dictionary by key and projecting the values reproduces the original
elements (up to normal form) whenever there are at most 10 of them. -/
lemma indexed_value_norm {vs : List PValue} (hlen10 : vs.length ≤ 10)
    (hIH : pnormDict (rtDict (idxAssoc 0 vs)) = pnormDict (idxAssoc 0 vs)) :
    ((sortKey (rtDict (idxAssoc 0 vs))).map Prod.snd).map pnorm = vs.map pnorm := by
  have h1 : ((sortKey (rtDict (idxAssoc 0 vs))).map Prod.snd).map pnorm
      = (pnormEntries (sortKey (rtDict (idxAssoc 0 vs)))).map Prod.snd := by
    rw [map_snd_pnormEntries]
  have h2 : pnormEntries (sortKey (rtDict (idxAssoc 0 vs)))
      = pnormDict (rtDict (idxAssoc 0 vs)) := (sortKey_pnormEntries _).symm
  have h3 : sortKey (idxAssoc 0 vs) = idxAssoc 0 vs := by
    apply sortKey_id_of_chain
    rw [map_fst_idxAssoc]
    exact chain_digit_keys hlen10
  have h4 : pnormDict (idxAssoc 0 vs) = pnormEntries (idxAssoc 0 vs) := by
    show sortKey (pnormEntries (idxAssoc 0 vs)) = _
    rw [sortKey_pnormEntries, h3]
  rw [h1, h2, hIH, h4, map_snd_pnormEntries, map_snd_idxAssoc]

/-- Per-entry round trip for non-attribute values: the import recovers
the original key and a value with the same normal form. -/
lemma obj_step {k : String} {v : PValue}
    (hg : goodKey k = true) (hs : Supported v = true) (ha : isAttrVal v = false)
    (IH : ∀ es', pvSizeE es' < pvSize v → WFDict es' = true →
      pnormDict (rtDict es') = pnormDict es') :
    ∃ w, pnorm w = pnorm v ∧
      ∀ d, importObjOne (exportEntry k v) d = setKey d k w := by
  obtain ⟨g1, g2, g3, g4, g5, g6, g7, g8⟩ := goodKey_spec hg
  cases v with
  | pdict es =>
    refine ⟨.pdict (rtDict es), ?_, fun d => ?_⟩
    · have hwfes : WFDict es = true := hs
      have hsz : pvSizeE es < pvSize (.pdict es) := by
        simp [pvSize]
      have := IH es hsz hwfes
      show PValue.pdict (sortKey (pnormEntries (rtDict es))) = .pdict (sortKey (pnormEntries es))
      exact congrArg PValue.pdict this
    · show importObjOne (.sub k (dict2hdfgroup es)) d = _
      simp only [importObjOne, g1, g6, g2, g3, Bool.false_eq_true, if_false]
      rfl
  | arr shape data =>
    refine ⟨.arr shape data, rfl, fun d => ?_⟩
    show setKey d (dsetKeyName k) (dsetValue k (.ints shape data)) = _
    rw [show dsetKeyName k = k by simp [dsetKeyName, g2, g3],
      show dsetValue k (.ints shape data) = .arr shape data by simp [dsetValue, g2, g3]]
  | plist vs =>
    have hlen : vs.length ≠ 0 := by simpa [isAttrVal] using ha
    cases harrk : arrKind vs with
    | ints =>
      have hall : vs.all isIntV = true := by
        simp only [Supported] at hs
        rw [harrk] at hs
        exact hs
      have hexp : exportEntry k (.plist vs) =
          .dset ("_list_" ++ k) (.ints [vs.length] (intsOf vs)) := by
        simp only [exportEntry]
        rw [if_pos hlen, harrk]
      refine ⟨.plist vs, rfl, fun d => ?_⟩
      rw [hexp]
      show setKey d (dsetKeyName ("_list_" ++ k))
        (dsetValue ("_list_" ++ k) (.ints [vs.length] (intsOf vs))) = _
      rw [show dsetKeyName ("_list_" ++ k) = k from rfl]
      rw [show dsetValue ("_list_" ++ k) (.ints [vs.length] (intsOf vs)) =
        .plist ((intsOf vs).map PValue.pint) from rfl]
      rw [intsOf_roundtrip vs hall]
    | strs =>
      have hall : vs.all isStrV = true := by
        simp only [Supported] at hs
        rw [harrk] at hs
        exact hs
      have hexp : exportEntry k (.plist vs) =
          .dset ("_list_" ++ k) (.strs (strsOf vs)) := by
        simp only [exportEntry]
        rw [if_pos hlen, harrk]
      refine ⟨.plist vs, rfl, fun d => ?_⟩
      rw [hexp]
      show setKey d (dsetKeyName ("_list_" ++ k))
        (dsetValue ("_list_" ++ k) (.strs (strsOf vs))) = _
      rw [show dsetKeyName ("_list_" ++ k) = k from rfl]
      rw [show dsetValue ("_list_" ++ k) (.strs (strsOf vs)) =
        .plist ((strsOf vs).map PValue.pstr) from rfl]
      rw [strsOf_roundtrip vs hall]
    | bytesK =>
      simp only [Supported] at hs
      rw [harrk] at hs
      exact Bool.noConfusion hs
    | obj =>
      have hs2 : (decide (vs.length ≤ 10) && SupportedList vs) = true := by
        simp only [Supported] at hs
        rw [harrk] at hs
        exact hs
      rw [Bool.and_eq_true, decide_eq_true_eq] at hs2
      obtain ⟨hlen10, hsl⟩ := hs2
      have hexp : exportEntry k (.plist vs) =
          .sub ("_list_" ++ toString vs.length ++ "_" ++ k) (exportIndexed 0 vs) := by
        simp only [exportEntry]
        rw [if_pos hlen, harrk]
      have hwfidx : WFDict (idxAssoc 0 vs) = true := wf_idxAssoc hlen10 hsl
      have hszidx : pvSizeE (idxAssoc 0 vs) < pvSize (.plist vs) := by
        rw [pvSizeE_idxAssoc]
        simp [pvSize]
      have hIHidx := IH (idxAssoc 0 vs) hszidx hwfidx
      refine ⟨.plist ((sortKey (rtDict (idxAssoc 0 vs))).map Prod.snd), ?_, fun d => ?_⟩
      · show PValue.plist (pnormList _) = .plist (pnormList vs)
        rw [pnormList_eq_map, pnormList_eq_map, indexed_value_norm hlen10 hIHidx]
      · rw [hexp]
        show setKey d (stripIndexedName 6 ("_list_" ++ toString vs.length ++ "_" ++ k))
          (.plist ((sortKey (importObjs (exportIndexed 0 vs)
            (importAttrs (exportIndexed 0 vs) []))).map Prod.snd)) = _
        rw [strip_list_name (by omega) hlen10 k, exportIndexed_eq_dict]
        rfl
  | ptuple vs =>
    have hlen : vs.length ≠ 0 := by simpa [isAttrVal] using ha
    cases harrk : arrKind vs with
    | ints =>
      have hall : vs.all isIntV = true := by
        simp only [Supported] at hs
        rw [harrk] at hs
        exact hs
      have hexp : exportEntry k (.ptuple vs) =
          .dset ("_tuple_" ++ k) (.ints [vs.length] (intsOf vs)) := by
        simp only [exportEntry]
        rw [if_pos hlen, harrk]
      refine ⟨.ptuple vs, rfl, fun d => ?_⟩
      rw [hexp]
      show setKey d (dsetKeyName ("_tuple_" ++ k))
        (dsetValue ("_tuple_" ++ k) (.ints [vs.length] (intsOf vs))) = _
      rw [show dsetKeyName ("_tuple_" ++ k) = k from rfl]
      rw [show dsetValue ("_tuple_" ++ k) (.ints [vs.length] (intsOf vs)) =
        .ptuple ((intsOf vs).map PValue.pint) from rfl]
      rw [intsOf_roundtrip vs hall]
    | strs =>
      have hall : vs.all isStrV = true := by
        simp only [Supported] at hs
        rw [harrk] at hs
        exact hs
      have hexp : exportEntry k (.ptuple vs) =
          .dset ("_tuple_" ++ k) (.strs (strsOf vs)) := by
        simp only [exportEntry]
        rw [if_pos hlen, harrk]
      refine ⟨.ptuple vs, rfl, fun d => ?_⟩
      rw [hexp]
      show setKey d (dsetKeyName ("_tuple_" ++ k))
        (dsetValue ("_tuple_" ++ k) (.strs (strsOf vs))) = _
      rw [show dsetKeyName ("_tuple_" ++ k) = k from rfl]
      rw [show dsetValue ("_tuple_" ++ k) (.strs (strsOf vs)) =
        .ptuple ((strsOf vs).map PValue.pstr) from rfl]
      rw [strsOf_roundtrip vs hall]
    | bytesK =>
      simp only [Supported] at hs
      rw [harrk] at hs
      exact Bool.noConfusion hs
    | obj =>
      have hs2 : (decide (vs.length ≤ 10) && SupportedList vs) = true := by
        simp only [Supported] at hs
        rw [harrk] at hs
        exact hs
      rw [Bool.and_eq_true, decide_eq_true_eq] at hs2
      obtain ⟨hlen10, hsl⟩ := hs2
      have hexp : exportEntry k (.ptuple vs) =
          .sub ("_tuple_" ++ toString vs.length ++ "_" ++ k) (exportIndexed 0 vs) := by
        simp only [exportEntry]
        rw [if_pos hlen, harrk]
      have hwfidx : WFDict (idxAssoc 0 vs) = true := wf_idxAssoc hlen10 hsl
      have hszidx : pvSizeE (idxAssoc 0 vs) < pvSize (.ptuple vs) := by
        rw [pvSizeE_idxAssoc]
        simp [pvSize]
      have hIHidx := IH (idxAssoc 0 vs) hszidx hwfidx
      refine ⟨.ptuple ((sortKey (rtDict (idxAssoc 0 vs))).map Prod.snd), ?_, fun d => ?_⟩
      · show PValue.ptuple (pnormList _) = .ptuple (pnormList vs)
        rw [pnormList_eq_map, pnormList_eq_map, indexed_value_norm hlen10 hIHidx]
      · rw [hexp]
        show setKey d (stripIndexedName 7 ("_tuple_" ++ toString vs.length ++ "_" ++ k))
          (.ptuple ((sortKey (importObjs (exportIndexed 0 vs)
            (importAttrs (exportIndexed 0 vs) []))).map Prod.snd)) = _
        rw [strip_tuple_name (by omega) hlen10 k, exportIndexed_eq_dict]
        rfl
  | pnone => simp [isAttrVal] at ha
  | pdatetime r => simp [isAttrVal] at ha
  | pbytes bs => simp [isAttrVal] at ha
  | pstr s => simp [isAttrVal] at ha
  | pint n => simp [isAttrVal] at ha

/-- The object pass over an exported dictionary: the non-attribute
entries are appended in order, keys recovered exactly and values up to
normal form. -/
lemma importObjs_pass (B : Nat)
    (IH : ∀ es', pvSizeE es' < B → WFDict es' = true →
      pnormDict (rtDict es') = pnormDict es') :
    ∀ (es d : List (String × PValue)), pvSizeE es ≤ B → WFDict es = true →
    (∀ p ∈ es, isAttrVal p.2 = false → getKey d p.1 = none) →
    ∃ res, importObjs (dict2hdfgroup es) d = d ++ res ∧
      res.map Prod.fst = (es.filter fun p => !isAttrVal p.2).map Prod.fst ∧
      pnormEntries res = pnormEntries (es.filter fun p => !isAttrVal p.2) := by
  intro es
  induction es with
  | nil => intro d _ _ _; exact ⟨[], by simp [dict2hdfgroup, importObjs], rfl, rfl⟩
  | cons p rest ih =>
    intro d hsz hwf hfresh
    obtain ⟨k, v⟩ := p
    obtain ⟨hg, hsv, hwfr, hknot⟩ := WFDict_cons hwf
    have hszv : pvSize v + pvSizeE rest ≤ B := hsz
    rw [dict2hdfgroup]
    cases hA : isAttrVal v
    · -- object entry: one setKey, then the rest
      have hIHv : ∀ es', pvSizeE es' < pvSize v → WFDict es' = true →
          pnormDict (rtDict es') = pnormDict es' := by
        intro es' hlt hw
        exact IH es' (by omega) hw
      obtain ⟨w, hpn, himp⟩ := obj_step hg hsv hA hIHv
      have hkfresh : getKey d k = none := hfresh (k, v) (List.mem_cons_self _ _) hA
      have hfresh' : ∀ q ∈ rest, isAttrVal q.2 = false →
          getKey (d ++ [(k, w)]) q.1 = none := by
        intro q hq hq2
        refine getKey_append_none (hfresh q (List.mem_cons_of_mem _ hq) hq2) ?_
        intro hqk
        exact hknot (hqk ▸ List.mem_map_of_mem Prod.fst hq)
      obtain ⟨res', heq, hfst, hpne⟩ := ih (d ++ [(k, w)]) (by omega) hwfr hfresh'
      refine ⟨(k, w) :: res', ?_, ?_, ?_⟩
      · rw [importObjs, himp d, setKey_fresh w hkfresh, heq, List.append_assoc,
          List.singleton_append]
      · simp only [List.filter_cons, hA, Bool.not_false, if_true, List.map_cons, hfst]
      · simp only [List.filter_cons, hA, Bool.not_false, if_true, pnormEntries, hpne, hpn]
    · -- attribute entry: skipped by the object loop
      obtain ⟨name, hv, he, _⟩ := attr_step hg hsv hA
      rw [he]
      obtain ⟨res', heq, hfst, hpne⟩ := ih d (by omega) hwfr
        (fun q hq hq2 => hfresh q (List.mem_cons_of_mem _ hq) hq2)
      refine ⟨res', ?_, ?_, ?_⟩
      · rw [importObjs]
        show importObjs (dict2hdfgroup rest) d = _
        exact heq
      · rw [List.filter_cons]
        simp only [hA, Bool.not_true, if_false]
        exact hfst
      · rw [List.filter_cons]
        simp only [hA, Bool.not_true, if_false]
        exact hpne

/-- The round trip of a well-formed dictionary is, up to Python dict
equality (key-sorted normal form), the original dictionary. -/
theorem rt_pnorm_main : ∀ (B : Nat) (es : List (String × PValue)), pvSizeE es ≤ B →
    WFDict es = true → pnormDict (rtDict es) = pnormDict es := by
  intro B
  induction B using Nat.strong_induction_on with
  | _ B IH =>
    intro es hsz hwf
    have IHflat : ∀ es', pvSizeE es' < B → WFDict es' = true →
        pnormDict (rtDict es') = pnormDict es' := by
      intro es' hlt hw
      exact IH (pvSizeE es') hlt es' le_rfl hw
    have hnodup : strsNodup (es.map Prod.fst) = true := by
      have h' : (strsNodup (es.map Prod.fst) && SupportedEntries es) = true := hwf
      rw [Bool.and_eq_true] at h'
      exact h'.1
    have hA : importAttrs (dict2hdfgroup es) [] =
        [] ++ es.filter (fun p => isAttrVal p.2) :=
      importAttrs_pass es [] hwf (fun p _ => rfl)
    obtain ⟨res, hobj, hfst, hpne⟩ := importObjs_pass B IHflat es
        (es.filter fun p => isAttrVal p.2) hsz hwf
        (fun p hp hp2 => filter_attr_fresh es hnodup p hp hp2)
    have hrt : rtDict es = es.filter (fun p => isAttrVal p.2) ++ res := by
      show importObjs (dict2hdfgroup es) (importAttrs (dict2hdfgroup es) []) = _
      rw [hA]
      simpa using hobj
    rw [pnormDict, hrt, pnormEntries_append, hpne, ← pnormEntries_append]
    show pnormDict _ = pnormDict es
    unfold pnormDict
    rw [show pnormEntries (es.filter (fun p => isAttrVal p.2) ++
        es.filter fun p => !isAttrVal p.2) =
      (es.filter (fun p => isAttrVal p.2) ++
        es.filter fun p => !isAttrVal p.2).map (fun p => (p.1, pnorm p.2)) from
      pnormEntries_eq_map _,
      pnormEntries_eq_map es]
    apply sortKey_eq_of_perm
    · exact (List.filter_append_perm _ es).map _
    · have hmapfst : (((es.filter (fun p => isAttrVal p.2) ++
          es.filter fun p => !isAttrVal p.2).map fun p => (p.1, pnorm p.2)).map Prod.fst) =
        ((es.filter (fun p => isAttrVal p.2) ++
          es.filter fun p => !isAttrVal p.2).map Prod.fst) := by
        rw [List.map_map]
        rfl
      rw [hmapfst]
      refine ((List.filter_append_perm (fun p => isAttrVal p.2) es).map Prod.fst).nodup_iff.mpr ?_
      exact (strsNodup_iff _).mp hnodup

/-- C1 (amended): for every supported value `v` stored under a clean key
by `dict2hdfgroup`, `hdfgroup2dict` applied to the resulting group
returns a dictionary whose entry under that key equals `v` as a Python
value (`pnorm` is Python `==`: dict entry order is ignored, list/tuple
order is not); in particular `None` round-trips via the `'_None_'`
sentinel, the empty list and tuple via the `_list_empty_`/
`_tuple_empty_` attribute sentinels, and NUL-containing byte strings
via the `_bs_` prefix.  The amendment (in `Supported`): a
heterogeneous/multidimensional list or tuple that is exported as an
indexed sub-mapping must have at most 10 elements — beyond that the
lexicographic key sort of the import permutes the elements (see the
counterexample); integers must fit `int64` (longs beyond it get dtype
object from numpy and fail the h5py attribute store); and scalar lists
must not mix in 0-dim arrays (numpy collapses them to scalars, so
the import returns plain ints and the ndarray type is lost). -/
theorem hdf5_roundtrip (k : String) (v : PValue)
    (hk : goodKey k = true) (hv : Supported v = true) :
    pnormDict (rtDict [(k, v)]) = [(k, pnorm v)] ∧
    exportEntry k .pnone = .attr k (.hstr "_None_") ∧
    exportEntry k (.plist []) = .attr ("_list_empty_" ++ k) (.hstr "_None_") ∧
    exportEntry k (.ptuple []) = .attr ("_tuple_empty_" ++ k) (.hstr "_None_") ∧
    (∀ bs : List Nat, bs.contains 0 = true →
      exportEntry k (.pbytes bs) = .attr ("_bs_" ++ k) (.hvoid bs)) := by
  refine ⟨?_, rfl, rfl, rfl, fun bs hbs => ?_⟩
  · have hwf : WFDict [(k, v)] = true := by
      simp [WFDict, strsNodup, SupportedEntries, hk, hv]
    have h := rt_pnorm_main (pvSizeE [(k, v)]) [(k, v)] le_rfl hwf
    rw [h]
    rfl
  · simp only [exportEntry]
    rw [if_pos hbs]

/-- Witness for C1 at a concrete nested dictionary (a mapping holding
`None`, a homogeneous list and a NUL byte string). -/
theorem hdf5_roundtrip_witness :
    pnormDict (rtDict [("calibration", PValue.pdict [("a", .pnone),
        ("b", .plist [.pint 1, .pint 2]), ("c", .pbytes [7, 0, 8])])]) =
      [("calibration", pnorm (PValue.pdict [("a", .pnone),
        ("b", .plist [.pint 1, .pint 2]), ("c", .pbytes [7, 0, 8])]))] :=
  (hdf5_roundtrip "calibration"
    (PValue.pdict [("a", .pnone), ("b", .plist [.pint 1, .pint 2]),
      ("c", .pbytes [7, 0, 8])]) (by decide) (by decide)).1

/-- Counterexample to C1 as stated: an 11-element heterogeneous list is
a non-empty list (a "supported" type of the claim), but the codec hands
it back in a different order — the entry under the key is not the
original value. -/
theorem hdf5_roundtrip_counterexample :
    rtDict [("k", .plist [.pnone, .pint 1, .pint 2, .pint 3, .pint 4, .pint 5,
        .pint 6, .pint 7, .pint 8, .pint 9, .pint 10])] =
      [("k", .plist [.pnone, .pint 1, .pint 10, .pint 2, .pint 3, .pint 4, .pint 5,
        .pint 6, .pint 7, .pint 8, .pint 9])] ∧
    ¬ rtDict [("k", .plist [.pnone, .pint 1, .pint 2, .pint 3, .pint 4, .pint 5,
        .pint 6, .pint 7, .pint 8, .pint 9, .pint 10])] =
      [("k", .plist [.pnone, .pint 1, .pint 2, .pint 3, .pint 4, .pint 5,
        .pint 6, .pint 7, .pint 8, .pint 9, .pint 10])] := by
  constructor
  · rfl
  · intro h
    rw [show rtDict [("k", .plist [.pnone, .pint 1, .pint 2, .pint 3, .pint 4, .pint 5,
        .pint 6, .pint 7, .pint 8, .pint 9, .pint 10])] =
      [("k", .plist [.pnone, .pint 1, .pint 10, .pint 2, .pint 3, .pint 4, .pint 5,
        .pint 6, .pint 7, .pint 8, .pint 9])] from rfl] at h
    simp only [List.cons.injEq, Prod.mk.injEq, PValue.plist.injEq, PValue.pint.injEq] at h
    omega

/-- C7: the indexed sub-mapping export uses the decimal string keys
`str(0) .. str(n-1)`, but the import (`hdfgroup2dict`, lines 454-461)
reconstructs the sequence with `sorted(...)` over those *string* keys —
lexicographic, not numeric — so for 11 or more elements the order is
permuted: `"10"` sorts between `"1"` and `"2"`.  The theorem evaluates
the codec at the failing input: an 11-element tuple comes back with its
11th element spliced into third position. -/
theorem hdf5_indexed_order_bug :
    dict2hdfgroup [("axes", .ptuple [.pnone, .pint 1, .pint 2, .pint 3, .pint 4,
        .pint 5, .pint 6, .pint 7, .pint 8, .pint 9, .pint 10])] =
      [.sub "_tuple_11_axes" (exportIndexed 0 [.pnone, .pint 1, .pint 2, .pint 3,
        .pint 4, .pint 5, .pint 6, .pint 7, .pint 8, .pint 9, .pint 10])] ∧
    rtDict [("axes", .ptuple [.pnone, .pint 1, .pint 2, .pint 3, .pint 4,
        .pint 5, .pint 6, .pint 7, .pint 8, .pint 9, .pint 10])] =
      [("axes", .ptuple [.pnone, .pint 1, .pint 10, .pint 2, .pint 3, .pint 4,
        .pint 5, .pint 6, .pint 7, .pint 8, .pint 9])] ∧
    ¬ rtDict [("axes", .ptuple [.pnone, .pint 1, .pint 2, .pint 3, .pint 4,
        .pint 5, .pint 6, .pint 7, .pint 8, .pint 9, .pint 10])] =
      [("axes", .ptuple [.pnone, .pint 1, .pint 2, .pint 3, .pint 4,
        .pint 5, .pint 6, .pint 7, .pint 8, .pint 9, .pint 10])] := by
  refine ⟨rfl, rfl, fun h => ?_⟩
  rw [show rtDict [("axes", .ptuple [.pnone, .pint 1, .pint 2, .pint 3, .pint 4,
      .pint 5, .pint 6, .pint 7, .pint 8, .pint 9, .pint 10])] =
    [("axes", .ptuple [.pnone, .pint 1, .pint 10, .pint 2, .pint 3, .pint 4,
      .pint 5, .pint 6, .pint 7, .pint 8, .pint 9])] from rfl] at h
  simp only [List.cons.injEq, Prod.mk.injEq, PValue.ptuple.injEq, PValue.pint.injEq] at h
  omega

/-! ### C2 supporting lemmas: bit extraction arithmetic -/

theorem codeAt_succ (encoded : List Nat) (pos w : Nat) :
    codeAt encoded pos (w + 1) = 2 * codeAt encoded pos w + bitAt encoded (pos + w) := by
  simp [codeAt, List.range_succ]

theorem lzwWindow_length (encoded : List Nat) (start : Nat) :
    (lzwWindow encoded start).length = 4 := by
  simp only [lzwWindow, List.length_append, List.length_replicate]
  have : ((encoded.drop start).take 4).length ≤ 4 := by
    simp [List.length_take]
  omega

theorem lzwWindow_getD (encoded : List Nat) (start q : Nat) (hq : q < 4) :
    (lzwWindow encoded start).getD q 0 = encoded.getD (start + q) 0 := by
  simp only [lzwWindow, List.getD_eq_getElem?_getD]
  rcases Nat.lt_or_ge q ((encoded.drop start).take 4).length with h | h
  · rw [List.getElem?_append, if_pos h]
    rw [List.getElem?_take]
    rw [if_pos hq]
    rw [List.getElem?_drop]
  · rw [List.getElem?_append, if_neg (by omega)]
    have hlen : ((encoded.drop start).take 4).length = min 4 (encoded.length - start) := by
      simp [List.length_take]
    have henc : encoded.length ≤ start + q := by omega
    rw [List.getElem?_replicate]
    have hq' : q - ((encoded.drop start).take 4).length <
        4 - ((encoded.drop start).take 4).length := by
      omega
    rw [if_pos hq']
    rw [List.getElem?_eq_none (by omega)]
    rfl

theorem lzwWindow_lt (encoded : List Nat) (hwf : ∀ b ∈ encoded, b < 256) (start : Nat) :
    ∀ b ∈ lzwWindow encoded start, b < 256 := by
  intro b hb
  simp only [lzwWindow, List.mem_append] at hb
  rcases hb with hb | hb
  · exact hwf b (List.mem_of_mem_drop (List.mem_of_mem_take hb))
  · rw [List.eq_of_mem_replicate hb]
    norm_num

theorem beNat_four (b0 b1 b2 b3 : Nat) :
    beNat [b0, b1, b2, b3] = b0 * 2 ^ 24 + b1 * 2 ^ 16 + b2 * 2 ^ 8 + b3 := by
  show b0 * 256 ^ 3 + (b1 * 256 ^ 2 + (b2 * 256 ^ 1 + (b3 * 256 ^ 0 + 0))) = _
  norm_num
  ring

theorem bit_core (b0 b1 b2 b3 j : Nat) (h0 : b0 < 256) (h1 : b1 < 256) (h2 : b2 < 256)
    (h3 : b3 < 256) (hj : j ≤ 31) :
    (b0 * 2 ^ 24 + b1 * 2 ^ 16 + b2 * 2 ^ 8 + b3) / 2 ^ (31 - j) % 2 =
      [b0, b1, b2, b3].getD (j / 8) 0 / 2 ^ (7 - j % 8) % 2 := by
  clear h0
  interval_cases j <;> simp only [List.getD] <;> norm_num <;> omega

theorem land_shift (y n k : Nat) : (y &&& ((2 ^ n - 1) <<< k)) >>> k = (y >>> k) % 2 ^ n := by
  apply Nat.eq_of_testBit_eq
  intro i
  simp only [Nat.testBit_shiftRight, Nat.testBit_land, Nat.testBit_shiftLeft,
    Nat.testBit_two_pow_sub_one, Nat.testBit_mod_two_pow]
  have h : k + i - k = i := by omega
  rw [h]
  by_cases hk : k + i ≥ k
  · simp [hk, Bool.and_comm]
  · omega

theorem shift_div (X r m : Nat) (h : r ≤ m) : (X <<< r) >>> m = X / 2 ^ (m - r) := by
  rw [Nat.shiftLeft_eq, Nat.shiftRight_eq_div_pow]
  have hm : 2 ^ m = 2 ^ (m - r) * 2 ^ r := by
    rw [← pow_add]
    congr 1
    omega
  rw [hm]
  rw [Nat.mul_div_mul_right _ _ (Nat.two_pow_pos r)]

theorem mod_two_pow_succ (a w : Nat) :
    a % 2 ^ (w + 1) = 2 * (a / 2 % 2 ^ w) + a % 2 := by
  rw [pow_succ']
  rw [Nat.mod_mul]
  ring

/-- The value `next_code` extracts with the width-`w` mask/shift parameters
is exactly the `w`-bit MSB-first reading at the same bit position. -/
theorem next_code_eq_codeAt (encoded : List Nat) (hwf : ∀ b ∈ encoded, b < 256)
    (pos w : Nat) (h9 : 9 ≤ w) (h12 : w ≤ 12) :
    next_code encoded pos (32 - w) ((2 ^ w - 1) * 2 ^ (32 - w)) = codeAt encoded pos w := by
  have hr : pos % 8 < 8 := Nat.mod_lt _ (by norm_num)
  have hlen := lzwWindow_length encoded (pos / 8)
  obtain ⟨b0, b1, b2, b3, hw⟩ :
      ∃ b0 b1 b2 b3, lzwWindow encoded (pos / 8) = [b0, b1, b2, b3] := by
    rcases hl : lzwWindow encoded (pos / 8) with
        _ | ⟨a0, _ | ⟨a1, _ | ⟨a2, _ | ⟨a3, _ | ⟨a4, t⟩⟩⟩⟩⟩ <;>
      simp [hl] at hlen
    exact ⟨a0, a1, a2, a3, rfl⟩
  have hb0 : b0 < 256 := lzwWindow_lt encoded hwf (pos / 8) b0 (by rw [hw]; simp)
  have hb1 : b1 < 256 := lzwWindow_lt encoded hwf (pos / 8) b1 (by rw [hw]; simp)
  have hb2 : b2 < 256 := lzwWindow_lt encoded hwf (pos / 8) b2 (by rw [hw]; simp)
  have hb3 : b3 < 256 := lzwWindow_lt encoded hwf (pos / 8) b3 (by rw [hw]; simp)
  set X := beNat (lzwWindow encoded (pos / 8)) with hX
  have hXv : X = b0 * 2 ^ 24 + b1 * 2 ^ 16 + b2 * 2 ^ 8 + b3 := by
    rw [hX, hw, beNat_four]
  have hnc : next_code encoded pos (32 - w) ((2 ^ w - 1) * 2 ^ (32 - w)) =
      X / 2 ^ (32 - w - pos % 8) % 2 ^ w := by
    show ((X <<< (pos % 8)) &&& ((2 ^ w - 1) * 2 ^ (32 - w))) >>> (32 - w) = _
    rw [← Nat.shiftLeft_eq (2 ^ w - 1) (32 - w)]
    rw [land_shift]
    rw [shift_div X (pos % 8) (32 - w) (by omega)]
  rw [hnc]
  have main : ∀ u, u ≤ w → X / 2 ^ (32 - u - pos % 8) % 2 ^ u = codeAt encoded pos u := by
    intro u
    induction u with
    | zero => intro _; simp [codeAt, Nat.mod_one]
    | succ v ih =>
      intro hv
      have hcv := ih (by omega)
      rw [codeAt_succ, ← hcv]
      have hsplit : 32 - (v + 1) - pos % 8 + 1 = 32 - v - pos % 8 := by omega
      rw [mod_two_pow_succ]
      have hdiv : X / 2 ^ (32 - (v + 1) - pos % 8) / 2 = X / 2 ^ (32 - v - pos % 8) := by
        rw [Nat.div_div_eq_div_mul, ← pow_succ, hsplit]
      rw [hdiv]
      have hbit : X / 2 ^ (32 - (v + 1) - pos % 8) % 2 = bitAt encoded (pos + v) := by
        have hj : pos % 8 + v ≤ 31 := by omega
        have hexp : 32 - (v + 1) - pos % 8 = 31 - (pos % 8 + v) := by omega
        rw [hexp, hXv]
        rw [bit_core b0 b1 b2 b3 (pos % 8 + v) hb0 hb1 hb2 hb3 hj]
        have hposv : (pos + v) / 8 = pos / 8 + (pos % 8 + v) / 8 := by omega
        have hposm : (pos + v) % 8 = (pos % 8 + v) % 8 := by omega
        have hgd : [b0, b1, b2, b3].getD ((pos % 8 + v) / 8) 0 =
            encoded.getD ((pos + v) / 8) 0 := by
          rw [← hw, lzwWindow_getD encoded (pos / 8) ((pos % 8 + v) / 8) (by omega), ← hposv]
        rw [hgd]
        unfold bitAt
        rw [hposm]
      rw [hbit]
  exact main w le_rfl

/-! ### C2 supporting lemmas: the decoding loop -/

theorem lzwWidth_bounds (t : Nat) : 9 ≤ lzwWidth t ∧ lzwWidth t ≤ 12 := by
  unfold lzwWidth
  split_ifs <;> omega

theorem newtable_length : newtable.length = 258 := by
  simp [newtable]

theorem next_code9 (encoded : List Nat) (hwf : ∀ b ∈ encoded, b < 256) (pos : Nat) :
    next_code encoded pos 23 (511 * 2 ^ 23) = codeAt encoded pos 9 := by
  have h := next_code_eq_codeAt encoded hwf pos 9 (by norm_num) (by norm_num)
  norm_num at h ⊢
  exact h

/-- The `switchbitch` width update applied at a post-increment table size
reproduces the documented width function at the new size. -/
theorem lzwParams_width (t : Nat) (ht : 258 ≤ t) :
    lzwParams (lzwWidth t) (32 - lzwWidth t) ((2 ^ lzwWidth t - 1) * 2 ^ (32 - lzwWidth t))
      (t + 1) =
    (lzwWidth (t + 1), 32 - lzwWidth (t + 1),
      (2 ^ lzwWidth (t + 1) - 1) * 2 ^ (32 - lzwWidth (t + 1))) := by
  by_cases h1 : t = 510
  · subst h1; norm_num [lzwParams, switchbitch, lzwWidth]
  by_cases h2 : t = 1022
  · subst h2; norm_num [lzwParams, switchbitch, lzwWidth]
  by_cases h3 : t = 2046
  · subst h3; norm_num [lzwParams, switchbitch, lzwWidth]
  have hsw : switchbitch (t + 1) = none := by
    unfold switchbitch
    split_ifs <;> first | rfl | omega
  have hwid : lzwWidth (t + 1) = lzwWidth t := by
    unfold lzwWidth
    split_ifs <;> omega
  simp only [lzwParams, hsw, hwid]

/-- The specification loop never runs out of fuel when started with at least
one fuel unit per strip byte plus four: every iteration advances the bit
position by at least 9 and the loop ends once it passes `bmax`. -/
theorem lzwSpecLoop_no_fuel : ∀ (fuel : Nat) (encoded : List Nat) (bmax : Nat)
    (table : List (List Nat)) (pos prev : Nat) (out : List (List Nat)),
    bmax + 27 ≤ 9 * fuel + pos → pos ≤ bmax + 18 →
    lzwSpecLoop encoded bmax fuel table pos prev out ≠ .outOfFuel := by
  intro fuel
  induction fuel with
  | zero => intro encoded bmax table pos prev out h1 h2; omega
  | succ fuel ih =>
    intro encoded bmax table pos prev out h1 h2
    have hwb := lzwWidth_bounds table.length
    simp only [lzwSpecLoop]
    split_ifs with hc1 hc2 hc3 hc4 hc5 hc6 hc7 <;> try simp
    · exact ih encoded bmax newtable (pos + lzwWidth table.length + 9) _ _ (by omega) (by omega)
    · exact ih encoded bmax _ (pos + lzwWidth table.length) _ _ (by omega) (by omega)
    · exact ih encoded bmax _ (pos + lzwWidth table.length) _ _ (by omega) (by omega)

/-- Lockstep refinement: whenever the specification loop accepts a stream,
the embedded `decodelzw` loop, started in the corresponding state (same
table, the width parameters prescribed by the table size, same bit
position, previous code and accumulated output), produces the same
output. -/
theorem lzw_refine : ∀ (fuel : Nat) (encoded : List Nat) (bmax : Nat)
    (table : List (List Nat)) (lentable bitw shr mask pos prev : Nat)
    (out res : List (List Nat)),
    (∀ b ∈ encoded, b < 256) → 258 ≤ table.length →
    lentable = table.length → bitw = lzwWidth table.length →
    shr = 32 - lzwWidth table.length →
    mask = (2 ^ lzwWidth table.length - 1) * 2 ^ (32 - lzwWidth table.length) →
    lzwSpecLoop encoded bmax fuel table pos prev out = .done res →
    lzwLoop encoded bmax fuel
      ⟨table, lentable, bitw, shr, mask, pos, prev, out⟩ = res := by
  intro fuel
  induction fuel with
  | zero =>
    intro encoded bmax table lentable bitw shr mask pos prev out res hwf htl h1 h2 h3 h4 hspec
    simp [lzwSpecLoop] at hspec
  | succ fuel ih =>
    intro encoded bmax table lentable bitw shr mask pos prev out res hwf htl h1 h2 h3 h4 hspec
    subst h1; subst h2; subst h3; subst h4
    have hwb := lzwWidth_bounds table.length
    have hc1 : next_code encoded pos (32 - lzwWidth table.length)
        ((2 ^ lzwWidth table.length - 1) * 2 ^ (32 - lzwWidth table.length)) =
        codeAt encoded pos (lzwWidth table.length) :=
      next_code_eq_codeAt encoded hwf pos _ hwb.1 hwb.2
    simp only [lzwSpecLoop] at hspec
    simp only [lzwLoop, hc1]
    by_cases h257 : codeAt encoded pos (lzwWidth table.length) = 257
    · rw [if_pos h257] at hspec
      rw [if_pos (Or.inl h257)]
      exact (LzwRes.done.injEq _ _).mp hspec
    · rw [if_neg h257] at hspec
      by_cases hbm : bmax ≤ pos + lzwWidth table.length
      · rw [if_pos hbm] at hspec
        exact absurd hspec (by simp)
      · rw [if_neg hbm] at hspec
        rw [if_neg (by push_neg; exact ⟨h257, not_le.mp hbm⟩)]
        by_cases h256 : codeAt encoded pos (lzwWidth table.length) = 256
        · rw [if_pos h256] at hspec
          rw [if_pos h256]
          rw [next_code9 encoded hwf (pos + lzwWidth table.length)]
          by_cases hb : codeAt encoded (pos + lzwWidth table.length) 9 = 257
          · rw [if_pos hb] at hspec
            rw [if_pos hb]
            exact (LzwRes.done.injEq _ _).mp hspec
          · rw [if_neg hb] at hspec
            rw [if_neg hb]
            by_cases hlit : codeAt encoded (pos + lzwWidth table.length) 9 < 256
            · rw [if_pos hlit] at hspec
              exact ih encoded bmax newtable 258 9 23 (511 * 2 ^ 23) _ _ _ res hwf
                (by rw [newtable_length]) (by rw [newtable_length])
                (by rw [newtable_length]; norm_num [lzwWidth])
                (by rw [newtable_length]; norm_num [lzwWidth])
                (by rw [newtable_length]; norm_num [lzwWidth]) hspec
            · rw [if_neg hlit] at hspec
              exact absurd hspec (by simp)
        · rw [if_neg h256] at hspec
          rw [if_neg h256]
          by_cases hlt : codeAt encoded pos (lzwWidth table.length) < table.length
          · rw [if_pos hlt] at hspec
            simp only [if_pos hlt]
            rw [lzwParams_width table.length htl]
            exact ih encoded bmax
              (table ++ [table.getD prev [] ++
                (table.getD (codeAt encoded pos (lzwWidth table.length)) []).take 1])
              (table.length + 1) _ _ _ _ _ _ res hwf
              (by simp; omega) (by simp) (by simp) (by simp) (by simp) hspec
          · rw [if_neg hlt] at hspec
            simp only [if_neg hlt]
            by_cases heq : codeAt encoded pos (lzwWidth table.length) = table.length
            · rw [if_pos heq] at hspec
              rw [lzwParams_width table.length htl]
              exact ih encoded bmax
                (table ++ [table.getD prev [] ++ (table.getD prev []).take 1])
                (table.length + 1) _ _ _ _ _ _ res hwf
                (by simp; omega) (by simp) (by simp) (by simp) (by simp) hspec
            · rw [if_neg heq] at hspec
              exact absurd hspec (by simp)

/-- C2: the LZW strip decoder `decodelzw` implements the documented TIFF LZW
algorithm.  A strip shorter than 4 bytes, or one that does not begin with
the CLEAR code (first 9 bits ≠ 256), raises the corresponding `ValueError`;
every stream accepted by the bit-by-bit specification decoder — which reads
9-bit codes after each CLEAR reset to the fresh 258-entry table, widens the
code width to 10/11/12 exactly when the dictionary size reaches 511, 1023
and 2047, and stops on EOI (257) — is decoded by `decodelzw` to exactly the
byte sequence the algorithm prescribes; the specification decoder itself
never exhausts the fuel budget `decodelzw` runs with; and the threshold
table is as documented. -/
theorem lzw_decoder_correct (encoded : List Nat) (hwf : ∀ b ∈ encoded, b < 256) :
    (encoded.length < 4 →
      decodelzw encoded = Except.error "strip must be at least 4 characters long") ∧
    (4 ≤ encoded.length → codeAt encoded 0 9 ≠ 256 →
      decodelzw encoded = Except.error "strip must begin with CLEAR code") ∧
    (∀ out, lzwSpecDecode encoded = some out → decodelzw encoded = Except.ok out) ∧
    (lzwSpecLoop encoded (encoded.length * 8) (encoded.length + 4) newtable 0 0 [] ≠
      LzwRes.outOfFuel) ∧
    (newtable.length = 258 ∧ lzwWidth 258 = 9 ∧ lzwWidth 510 = 9 ∧ lzwWidth 511 = 10 ∧
      lzwWidth 1022 = 10 ∧ lzwWidth 1023 = 11 ∧ lzwWidth 2046 = 11 ∧ lzwWidth 2047 = 12) := by
  refine ⟨?_, ?_, ?_, ?_, ?_⟩
  · intro hlt
    unfold decodelzw
    rw [if_pos hlt]
  · intro hge hne
    unfold decodelzw
    rw [if_neg (by omega)]
    rw [if_pos (by rw [next_code9 encoded hwf 0]; exact hne)]
  · intro out hspec
    unfold lzwSpecDecode at hspec
    by_cases hlen : encoded.length < 4
    · rw [if_pos hlen] at hspec
      exact absurd hspec (by simp)
    · rw [if_neg hlen] at hspec
      by_cases hclear : codeAt encoded 0 9 ≠ 256
      · rw [if_pos hclear] at hspec
        exact absurd hspec (by simp)
      · rw [if_neg hclear] at hspec
        push_neg at hclear
        rcases hloop : lzwSpecLoop encoded (encoded.length * 8) (encoded.length + 4)
            newtable 0 0 [] with o | _ | _ <;> rw [hloop] at hspec <;>
          simp only [Option.some.injEq, reduceCtorEq] at hspec
        unfold decodelzw
        rw [if_neg hlen]
        rw [if_neg (by rw [next_code9 encoded hwf 0]; exact fun hc => hc hclear)]
        rw [← hspec]
        have hr := lzw_refine (encoded.length + 4) encoded (encoded.length * 8) newtable
          258 9 23 (511 * 2 ^ 23) 0 0 [] o hwf (by rw [newtable_length])
          (by rw [newtable_length]) (by rw [newtable_length]; norm_num [lzwWidth])
          (by rw [newtable_length]; norm_num [lzwWidth])
          (by rw [newtable_length]; norm_num [lzwWidth]) hloop
        rw [hr]
  · exact lzwSpecLoop_no_fuel (encoded.length + 4) encoded (encoded.length * 8)
      newtable 0 0 [] (by omega) (by omega)
  · exact ⟨newtable_length, by norm_num [lzwWidth], by norm_num [lzwWidth],
      by norm_num [lzwWidth], by norm_num [lzwWidth], by norm_num [lzwWidth],
      by norm_num [lzwWidth], by norm_num [lzwWidth]⟩

set_option maxRecDepth 10000 in
/-- Witness for C2: the five-byte strip encoding the code sequence
CLEAR(256), 97, 98, EOI(257) at 9-bit width is accepted by the
specification decoder and decoded by `decodelzw` to the bytes of "ab". -/
theorem lzw_decoder_correct_witness :
    (∀ b ∈ [128, 24, 76, 80, 16], b < 256) ∧
    lzwSpecDecode [128, 24, 76, 80, 16] = some [97, 98] ∧
    decodelzw [128, 24, 76, 80, 16] = Except.ok [97, 98] :=
  ⟨by decide, by decide,
    (lzw_decoder_correct [128, 24, 76, 80, 16] (by decide)).2.2.1 [97, 98] (by decide)⟩
